import Mathlib

/-!
# gpxtojson: enrichment of a decoded GPX document

A shallow embedding of `main.go`: `convertPoint`, `convertSegment`,
`convertTrack` and `parse`, with the data types `Point`, `Segment`, `Track`
and `Doc`, followed by theorems about them.

Modelling choices.

* `float64` values that are only copied, added and divided (coordinates,
  distances, speeds) live in an arbitrary type `F`; the arithmetic on them is
  a parameter (`Env`), so every theorem holds whatever the rounding is.
* `uint` is a natural number below `2 ^ bits`, `bits` being 32 or 64; `+` on
  it wraps.
* `time.Time` is an instant counted in nanoseconds; `Time.Sub` and
  `Duration.Seconds` follow the Go standard library, the latter evaluated in
  binary64 (round to nearest, ties to even) because its result is truncated
  to an integer.
* `haversine` is a function of the repository whose file is not among the
  sources; it is a field of `Env`.
-/

/-! ## binary64 arithmetic on the values `Duration.Seconds` computes

Finite values only, without a sign on zero, the exponent unbounded above; the
values that occur stay below `2 ^ 34` in magnitude. -/

namespace f64

/-- Scale of the fixed-point reading: the integer `n` stands for the real
number `n * 2 ^ (-1074)`.  Every finite binary64 value is such a multiple. -/
def scale : Nat := 2 ^ 1074

/-- Number of low bits that rounding to a 53-bit significand drops from `q`:
`0` while `q < 2 ^ 53`, otherwise one more than for `q / 2`.  The first
argument bounds the recursion; `q` itself is always enough. -/
def gridShift : Nat → Nat → Nat
  | 0, _ => 0
  | fuel + 1, q => if q < 2 ^ 53 then 0 else gridShift fuel (q / 2) + 1

/-- Rounding of the non-negative rational `num / den` (in units of
`2 ^ (-1074)`) to the nearest binary64 value, ties to the even significand. -/
def roundRat (num den : Nat) : Nat :=
  let g := 2 ^ gridShift (num / den) (num / den)
  let m := num / (den * g)
  let rem := num % (den * g)
  if 2 * rem > den * g ∨ (2 * rem = den * g ∧ m % 2 = 1) then (m + 1) * g else m * g

/-- Rounding of a signed rational: rounding is symmetric about zero. -/
def round (num : Int) (den : Nat) : Int :=
  Int.sign num * (roundRat num.natAbs den : Int)

/-- Conversion `float64(z)` of an integer. -/
def ofInt (z : Int) : Int := round (z * scale) 1

/-- Sum `a + b` of two binary64 values. -/
def add (a b : Int) : Int := round (a + b) 1

/-- Quotient `a / b` of two binary64 values, `b` non-zero. -/
def div (a b : Int) : Int := round (Int.sign b * a * scale) b.natAbs

/-- Integer part of a binary64 value, the fraction discarded. -/
def trunc (x : Int) : Int := x.tdiv scale

end f64

/-! ## The standard library's `time` package -/

namespace time

/-- An instant without monotonic clock reading, as a decoder produces it:
nanoseconds elapsed since January 1, year 1, 00:00:00 UTC.  The zero value of
the Go type is that origin. -/
structure Time where
  ns : Int
deriving DecidableEq, Repr

/-- Smallest `Duration`, an `int64` count of nanoseconds. -/
def minDuration : Int := -(2 ^ 63)

/-- Largest `Duration`. -/
def maxDuration : Int := 2 ^ 63 - 1

/-- The duration `t - u`; when it exceeds what a `Duration` can store, the
maximum (or minimum) duration is returned. -/
def Time.Sub (t u : Time) : Int :=
  let d := t.ns - u.ns
  if d < minDuration then minDuration
  else if maxDuration < d then maxDuration
  else d

/-- The duration as a floating point number of seconds:
`float64(d / Second) + float64(d % Second) / 1e9`. -/
def Duration.Seconds (d : Int) : Int :=
  let sec := d.tdiv 1000000000
  let nsec := d.tmod 1000000000
  f64.add (f64.ofInt sec) (f64.div (f64.ofInt nsec) (f64.ofInt 1000000000))

end time

/-! ## What the program is run against -/

/-- The arithmetic the program is compiled against and the one function of
the repository that `main.go` calls without defining.

* `zero`, `add`, `div`, `ofNat`: `float64` zero, `+`, `/`, and the conversion
  of an unsigned integer (or integer constant) to `float64`;
* `haversine`: the distance function called by `Point.DistanceTo`;
* `uint64`: whether `uint` is 64 bits wide (it is 32 bits wide otherwise);
* `uintOutOfRange`: the implementation-dependent result of converting to
  `uint` a `float64` whose integer part `uint` cannot represent. -/
structure Env (F : Type) where
  zero : F
  add : F → F → F
  div : F → F → F
  ofNat : Nat → F
  haversine : F → F → F → F → F
  uint64 : Bool
  uintOutOfRange : Int → Nat

/-- Width of `uint` in bits. -/
def Env.uintBits {F : Type} (env : Env F) : Nat := if env.uint64 then 64 else 32

/-- Addition of two `uint` values. -/
def Env.uintAdd {F : Type} (env : Env F) (a b : Nat) : Nat := (a + b) % 2 ^ env.uintBits

/-- Conversion `uint(x)` of a binary64 value: the fraction is discarded; a
value `uint` cannot represent converts to an implementation-dependent one. -/
def Env.uintOfFloat {F : Type} (env : Env F) (x : Int) : Nat :=
  let z := f64.trunc x
  if 0 ≤ z ∧ z < 2 ^ env.uintBits then z.toNat
  else env.uintOutOfRange x % 2 ^ env.uintBits

/-! ## The decoder's types (package `gpx`), restricted to the fields read -/

namespace gpx

structure Point (F : Type) where
  Latitude : F
  Longitude : F
  Elevation : F
  Time : time.Time
deriving DecidableEq, Repr

structure Segment (F : Type) where
  Points : List (Point F)
deriving DecidableEq, Repr

structure Track (F : Type) where
  Segments : List (Segment F)
deriving DecidableEq, Repr

structure Document (F : Type) where
  Version : String
  Tracks : List (Track F)
deriving DecidableEq, Repr

end gpx

/-! ## The program's types -/

structure Point (F : Type) where
  Lat : F
  Lon : F
  Elevation : F
  Time : time.Time
  Distance : F
  Duration : Nat
  Speed : F
  CumulativeDistance : F
  CumulativeDuration : Nat
deriving DecidableEq, Repr

structure Segment (F : Type) where
  Start : time.Time
  End : time.Time
  Distance : F
  Duration : Nat
  Speed : F
  Points : List (Point F)
deriving DecidableEq, Repr

structure Track (F : Type) where
  Start : time.Time
  End : time.Time
  Distance : F
  Duration : Nat
  Speed : F
  Segments : List (Segment F)
deriving DecidableEq, Repr

structure Doc (F : Type) where
  Version : String
  Start : time.Time
  End : time.Time
  Distance : F
  Duration : Nat
  Tracks : List (Track F)
deriving DecidableEq, Repr

section Program

variable {F : Type}

/-- Zero value of `Point`. -/
def Point.zero (env : Env F) : Point F :=
  { Lat := env.zero, Lon := env.zero, Elevation := env.zero, Time := ⟨0⟩,
    Distance := env.zero, Duration := 0, Speed := env.zero,
    CumulativeDistance := env.zero, CumulativeDuration := 0 }

/-- Zero value of `Segment`. -/
def Segment.zero (env : Env F) : Segment F :=
  { Start := ⟨0⟩, End := ⟨0⟩, Distance := env.zero, Duration := 0,
    Speed := env.zero, Points := [] }

/-- Zero value of `Track`. -/
def Track.zero (env : Env F) : Track F :=
  { Start := ⟨0⟩, End := ⟨0⟩, Distance := env.zero, Duration := 0,
    Speed := env.zero, Segments := [] }

/-- Zero value of `Doc`. -/
def Doc.zero (env : Env F) : Doc F :=
  { Version := "", Start := ⟨0⟩, End := ⟨0⟩, Distance := env.zero, Duration := 0,
    Tracks := [] }

/-- `func (p Point) DistanceTo(q Point) float64` -/
def Point.DistanceTo (env : Env F) (p q : Point F) : F :=
  env.haversine p.Lat p.Lon q.Lat q.Lon

/-- `func convertPoint(point gpx.Point) (p Point)` -/
def convertPoint (env : Env F) (point : gpx.Point F) : Point F :=
  let p := Point.zero env
  let p := { p with Lat := point.Latitude }
  let p := { p with Lon := point.Longitude }
  let p := { p with Elevation := point.Elevation }
  let p := { p with Time := point.Time }
  p

/-- Body of the loop of `convertSegment`, run for index `i` and element
`point` on the segment `s` built so far.  `s.Points[i-1]` is read with the
zero value as filler; `convertSegment_index_in_range` shows the filler is
never used. -/
def convertSegment.body (env : Env F) (s : Segment F) (i : Nat) (point : gpx.Point F) :
    Segment F :=
  let p := convertPoint env point
  let p :=
    if i = 0 then
      let p := { p with CumulativeDistance := env.zero }
      let p := { p with CumulativeDuration := 0 }
      p
    else
      let q := s.Points.getD (i - 1) (Point.zero env)
      let p := { p with Distance := p.DistanceTo env q }
      let p := { p with Duration := env.uintOfFloat (time.Duration.Seconds (p.Time.Sub q.Time)) }
      let p := { p with CumulativeDistance := env.add q.CumulativeDistance p.Distance }
      let p := { p with CumulativeDuration := env.uintAdd q.CumulativeDuration p.Duration }
      if p.Duration > 0 then
        { p with Speed := env.div (env.div p.Distance (env.ofNat 1000))
                            (env.div (env.div (env.ofNat p.Duration) (env.ofNat 60)) (env.ofNat 60)) }
      else p
  { s with Points := s.Points ++ [p] }

/-- The loop of `convertSegment`. -/
def convertSegment.loop (env : Env F) (segment : gpx.Segment F) : Segment F :=
  segment.Points.enum.foldl (fun s ip => convertSegment.body env s ip.1 ip.2)
    (Segment.zero env)

/-- `func convertSegment(segment gpx.Segment) (s Segment)` -/
def convertSegment (env : Env F) (segment : gpx.Segment F) : Segment F :=
  let s := convertSegment.loop env segment
  if s.Points.length > 0 then
    let p := s.Points.getD (s.Points.length - 1) (Point.zero env)
    let q := s.Points.getD 0 (Point.zero env)
    let s := { s with Start := q.Time }
    let s := { s with End := p.Time }
    let s := { s with Distance := p.CumulativeDistance }
    let s := { s with Duration := p.CumulativeDuration }
    if s.Duration > 0 then
      { s with Speed := env.div (env.div s.Distance (env.ofNat 1000))
                          (env.div (env.div (env.ofNat s.Duration) (env.ofNat 60)) (env.ofNat 60)) }
    else s
  else s

/-- Body of the loop of `convertTrack`. -/
def convertTrack.body (env : Env F) (t : Track F) (segment : gpx.Segment F) : Track F :=
  let s := convertSegment env segment
  let t := { t with Segments := t.Segments ++ [s] }
  let t := { t with Duration := env.uintAdd t.Duration s.Duration }
  let t := { t with Distance := env.add t.Distance s.Distance }
  t

/-- The loop of `convertTrack`. -/
def convertTrack.loop (env : Env F) (track : gpx.Track F) : Track F :=
  track.Segments.foldl (convertTrack.body env) (Track.zero env)

/-- `func convertTrack(track gpx.Track) (t Track)` -/
def convertTrack (env : Env F) (track : gpx.Track F) : Track F :=
  let t := convertTrack.loop env track
  let t :=
    if t.Segments.length > 0 then
      let s1 := t.Segments.getD 0 (Segment.zero env)
      let s2 := t.Segments.getD (t.Segments.length - 1) (Segment.zero env)
      let t := { t with Start := s1.Start }
      let t := { t with End := s2.End }
      t
    else t
  if t.Duration > 0 then
    { t with Speed := env.div (env.div t.Distance (env.ofNat 1000))
                        (env.div (env.div (env.ofNat t.Duration) (env.ofNat 60)) (env.ofNat 60)) }
  else t

/-- Body of the loop of `parse`. -/
def parse.body (env : Env F) (doc : Doc F) (track : gpx.Track F) : Doc F :=
  let t := convertTrack env track
  let doc := { doc with Tracks := doc.Tracks ++ [t] }
  let doc := { doc with Duration := env.uintAdd doc.Duration t.Duration }
  let doc := { doc with Distance := env.add doc.Distance t.Distance }
  doc

/-- What `parse` does with the document the decoder returned. -/
def parse.convert (env : Env F) (gpxdoc : gpx.Document F) : Doc F :=
  let doc := Doc.zero env
  let doc := { doc with Version := gpxdoc.Version }
  let doc := gpxdoc.Tracks.foldl (parse.body env) doc
  if doc.Tracks.length > 0 then
    let t1 := doc.Tracks.getD 0 (Track.zero env)
    let t2 := doc.Tracks.getD (doc.Tracks.length - 1) (Track.zero env)
    let doc := { doc with Start := t1.Start }
    let doc := { doc with End := t2.End }
    doc
  else doc

/-- `func parse(r io.Reader) (doc Doc, err error)`, as a function of what
`gpx.NewDecoder(r).Decode()` returned: the decoder's error is handed back,
a decoded document is converted. -/
def parse {ε : Type} (env : Env F) (decoded : Except ε (gpx.Document F)) : Except ε (Doc F) :=
  match decoded with
  | .error err => .error err
  | .ok gpxdoc => .ok (parse.convert env gpxdoc)

end Program

/-! ## A concrete environment to run the program in -/

/-- Exact rational arithmetic in the place of `float64`, a 64-bit `uint`
whose out-of-range conversions wrap, and the sum of the coordinate
differences in the place of `haversine`.  Used to evaluate the program on
concrete inputs. -/
def exactEnv : Env ℚ :=
  { zero := 0, add := fun a b => a + b, div := fun a b => a / b,
    ofNat := fun n => (n : ℚ),
    haversine := fun lat1 lon1 lat2 lon2 => |lat2 - lat1| + |lon2 - lon1|,
    uint64 := true,
    uintOutOfRange := fun x => (Int.emod (f64.trunc x) (2 ^ 64)).toNat }

/-- A point at the given latitude and longitude, `s` seconds and `n`
nanoseconds after the origin of time. -/
def mkPoint (lat lon : ℚ) (s n : Nat) : gpx.Point ℚ :=
  { Latitude := lat, Longitude := lon, Elevation := 0, Time := ⟨s * 1000000000 + n⟩ }

/-- Three points on the equator, one hour apart. -/
def sampleSegment : gpx.Segment ℚ :=
  ⟨[mkPoint 0 0 0 0, mkPoint 0 1 3600 0, mkPoint 0 2 7200 0]⟩

/-- A track of an empty segment and the sample segment. -/
def sampleTrack : gpx.Track ℚ := ⟨[⟨[]⟩, sampleSegment]⟩

/-- A document of the sample track. -/
def sampleDocument : gpx.Document ℚ := ⟨"1.1", [sampleTrack]⟩

/-- Two points in temporal order, 16777216.999999999 s (about 194 days)
apart. -/
def longGapSegment : gpx.Segment ℚ :=
  ⟨[mkPoint 0 0 0 0, mkPoint 0 1 16777216 999999999]⟩

/-- Two points in temporal order, 10000000000 s (about 317 years) apart. -/
def centuriesSegment : gpx.Segment ℚ :=
  ⟨[mkPoint 0 0 0 0, mkPoint 0 1 10000000000 0]⟩

/-- Two points out of temporal order: the second is 5 s earlier than the
first. -/
def backwardsSegment : gpx.Segment ℚ :=
  ⟨[mkPoint 0 0 10 0, mkPoint 0 1 5 0]⟩

/-! ## The distance function, from the specification -/

/-- Modelled from the spec: `atan2`, used by the haversine algorithm of the
spec's section 4.1, over the real numbers: the angle of the point `(x, y)`. -/
noncomputable def atan2 (y x : ℝ) : ℝ := Complex.arg ⟨x, y⟩

/-- Modelled from the spec: `haversine`, the function of the repository that
`Point.DistanceTo` calls and whose file is not among the sources.  It follows
the algorithm of the spec's section 4.1 over the real numbers, with the Earth
radius of 6371000 metres; `float64` rounding is outside this model. -/
noncomputable def haversine (lat1 lon1 lat2 lon2 : ℝ) : ℝ :=
  let phi1 := lat1 * Real.pi / 180
  let phi2 := lat2 * Real.pi / 180
  let dphi := (lat2 - lat1) * Real.pi / 180
  let dlambda := (lon2 - lon1) * Real.pi / 180
  let a := Real.sin (dphi / 2) ^ 2 + Real.cos phi1 * Real.cos phi2 * Real.sin (dlambda / 2) ^ 2
  let c := 2 * atan2 (Real.sqrt a) (Real.sqrt (1 - a))
  6371000 * c

/-- Real arithmetic in the place of `float64`, with the `haversine` of the
specification. -/
noncomputable def realEnv : Env ℝ :=
  { zero := 0, add := fun a b => a + b, div := fun a b => a / b,
    ofNat := fun n => (n : ℝ), haversine := haversine,
    uint64 := true, uintOutOfRange := fun _ => 0 }

/-! ## Sums, as the claims speak of them -/

section Sums

variable {F : Type}

/-- Left-to-right `float64` sum `x₀ + x₁ + ... + xₙ` of listed terms. -/
def sumLeft (env : Env F) : List F → F
  | [] => env.zero
  | x :: xs => xs.foldl env.add x

/-- In-order `float64` total of a list, accumulated from zero. -/
def totalFrom (env : Env F) (xs : List F) : F := xs.foldl env.add env.zero

/-- Sum of a list of `uint` values as the program adds them: accumulated from
zero, every addition wrapping at `2 ^ bits`. -/
def uintSum (env : Env F) (xs : List Nat) : Nat := xs.foldl env.uintAdd 0

/-- Speed in km/h out of a distance in metres and a duration in seconds, in
`float64`: kilometres over hours, the hours being `duration / 60 / 60`; zero
when the duration is zero. -/
def speedOf (env : Env F) (distance : F) (duration : Nat) : F :=
  if duration > 0 then
    env.div (env.div distance (env.ofNat 1000))
      (env.div (env.div (env.ofNat duration) (env.ofNat 60)) (env.ofNat 60))
  else env.zero

/-- The fields of an enriched point that come from the input. -/
def Point.raw (p : Point F) : F × F × F × time.Time := (p.Lat, p.Lon, p.Elevation, p.Time)

/-- The fields of an input point. -/
def gpx.Point.raw (p : gpx.Point F) : F × F × F × time.Time :=
  (p.Latitude, p.Longitude, p.Elevation, p.Time)

/-- What `float64` addition does with zero.  `special` singles out the values
that adding zero does not give back (negative zero, signalling NaNs): zero is
not one of them, a sum whose first term is not special is not special, and
adding zero on either side of a value that is not special returns it. -/
structure ZeroLaws (env : Env F) (special : F → Prop) : Prop where
  zero_ok : ¬ special env.zero
  add_ok : ∀ x y, ¬ special x → ¬ special (env.add x y)
  add_zero : ∀ x, ¬ special x → env.add x env.zero = x
  zero_add : ∀ x, ¬ special x → env.add env.zero x = x

/-- Whole seconds from `u` to `t`, the fraction discarded. -/
def wholeSeconds (t u : time.Time) : Int := (t.ns - u.ns).tdiv 1000000000

/-- The timestamps of a list of points never step back, and each follows the
one before it by less than `2 ^ 24` seconds. -/
def closeOrdered (pts : List (gpx.Point F)) : Prop :=
  List.Chain' (fun t u : time.Time => t.ns ≤ u.ns ∧ u.ns - t.ns < 2 ^ 24 * 1000000000)
    (pts.map (fun p => p.Time))

/-- Three points at the same place, 0.6 s apart each. -/
def subSecondIn (env : Env F) : gpx.Segment F :=
  ⟨[⟨env.zero, env.zero, env.zero, ⟨0⟩⟩, ⟨env.zero, env.zero, env.zero, ⟨600000000⟩⟩,
    ⟨env.zero, env.zero, env.zero, ⟨1200000000⟩⟩]⟩

end Sums

/-! ## The loop of `convertSegment`, point by point -/

section Enrich

variable {F : Type}

/-- The point the loop appends at index 0. -/
def firstPoint (env : Env F) (point : gpx.Point F) : Point F :=
  { convertPoint env point with CumulativeDistance := env.zero, CumulativeDuration := 0 }

/-- The point the loop appends after the enriched point `q`. -/
def nextPoint (env : Env F) (q : Point F) (point : gpx.Point F) : Point F :=
  let p := convertPoint env point
  let p := { p with Distance := p.DistanceTo env q }
  let p := { p with Duration := env.uintOfFloat (time.Duration.Seconds (p.Time.Sub q.Time)) }
  let p := { p with CumulativeDistance := env.add q.CumulativeDistance p.Distance }
  let p := { p with CumulativeDuration := env.uintAdd q.CumulativeDuration p.Duration }
  if p.Duration > 0 then
    { p with Speed := env.div (env.div p.Distance (env.ofNat 1000))
                        (env.div (env.div (env.ofNat p.Duration) (env.ofNat 60)) (env.ofNat 60)) }
  else p

/-- The points appended after `q` for the remaining input. -/
def enrichFrom (env : Env F) : Point F → List (gpx.Point F) → List (Point F)
  | _, [] => []
  | q, pt :: rest => nextPoint env q pt :: enrichFrom env (nextPoint env q pt) rest

/-- The points appended for a whole input. -/
def enrich (env : Env F) : List (gpx.Point F) → List (Point F)
  | [] => []
  | pt :: rest => firstPoint env pt :: enrichFrom env (firstPoint env pt) rest

theorem body_zero (env : Env F) (s : Segment F) (pt : gpx.Point F) :
    convertSegment.body env s 0 pt = { s with Points := s.Points ++ [firstPoint env pt] } := by
  rfl

theorem body_succ (env : Env F) (s : Segment F) (i : Nat) (pt : gpx.Point F) :
    convertSegment.body env s (i + 1) pt =
      { s with Points := s.Points ++ [nextPoint env (s.Points.getD i (Point.zero env)) pt] } := by
  rfl

theorem foldl_body_enumFrom (env : Env F) (rest : List (gpx.Point F)) :
    ∀ (s : Segment F) (init : List (Point F)) (q : Point F), s.Points = init ++ [q] →
      (rest.enumFrom (init.length + 1)).foldl
          (fun s ip => convertSegment.body env s ip.1 ip.2) s =
        { s with Points := s.Points ++ enrichFrom env q rest } := by
  induction rest with
  | nil => intro s init q _; simp [enrichFrom]
  | cons pt rest ih =>
    intro s init q hs
    rw [List.enumFrom_cons, List.foldl_cons, body_succ]
    have hq : s.Points.getD init.length (Point.zero env) = q := by
      rw [hs]; simp
    rw [hq]
    have h := ih { s with Points := s.Points ++ [nextPoint env q pt] } (init ++ [q])
      (nextPoint env q pt) (by simp [hs])
    simp only [List.length_append, List.length_singleton] at h
    rw [h]
    simp [enrichFrom]

theorem loop_eq (env : Env F) (segment : gpx.Segment F) :
    convertSegment.loop env segment =
      { Segment.zero env with Points := enrich env segment.Points } := by
  unfold convertSegment.loop
  cases h : segment.Points with
  | nil => rfl
  | cons pt rest =>
    rw [List.enum, List.enumFrom_cons, List.foldl_cons, body_zero]
    have := foldl_body_enumFrom env rest
      { Segment.zero env with Points := (Segment.zero env).Points ++ [firstPoint env pt] } []
      (firstPoint env pt) rfl
    simp only [List.length_nil, Nat.zero_add] at this
    rw [this]
    rfl

end Enrich

section SegmentFacts

variable {F : Type}

theorem enrichFrom_length (env : Env F) (rest : List (gpx.Point F)) :
    ∀ q, (enrichFrom env q rest).length = rest.length := by
  induction rest with
  | nil => intro q; rfl
  | cons pt rest ih => intro q; simp [enrichFrom, ih]

theorem enrich_length (env : Env F) (pts : List (gpx.Point F)) :
    (enrich env pts).length = pts.length := by
  cases pts with
  | nil => rfl
  | cons pt rest => simp [enrich, enrichFrom_length]

/-- The segment built by the loop from the first `i` input points has `i`
points: the read of `s.Points[i-1]` in iteration `i > 0` is within bounds. -/
theorem convertSegment_index_in_range (env : Env F) (segment : gpx.Segment F) (i : Nat)
    (hi : i ≤ segment.Points.length) :
    (convertSegment.loop env ⟨segment.Points.take i⟩).Points.length = i := by
  rw [loop_eq]
  show (enrich env (segment.Points.take i)).length = i
  rw [enrich_length, List.length_take]
  exact Nat.min_eq_left hi

theorem convertSegment_points (env : Env F) (segment : gpx.Segment F) :
    (convertSegment env segment).Points = enrich env segment.Points := by
  unfold convertSegment
  rw [loop_eq]
  dsimp only
  split
  · split <;> rfl
  · rfl

theorem convertSegment_nil (env : Env F) (segment : gpx.Segment F)
    (h : segment.Points = []) : convertSegment env segment = Segment.zero env := by
  unfold convertSegment
  rw [loop_eq, h]
  rfl

theorem convertSegment_fields (env : Env F) (segment : gpx.Segment F) (q p : Point F)
    (hq : (enrich env segment.Points)[0]? = some q)
    (hp : (enrich env segment.Points).getLast? = some p) :
    (convertSegment env segment).Start = q.Time ∧
    (convertSegment env segment).End = p.Time ∧
    (convertSegment env segment).Distance = p.CumulativeDistance ∧
    (convertSegment env segment).Duration = p.CumulativeDuration ∧
    (convertSegment env segment).Speed = speedOf env p.CumulativeDistance p.CumulativeDuration := by
  have hlen : 0 < (enrich env segment.Points).length := by
    cases h : enrich env segment.Points with
    | nil => rw [h] at hq; simp at hq
    | cons a l => simp
  have hq' : (enrich env segment.Points).getD 0 (Point.zero env) = q := by
    rw [List.getD_eq_getElem?_getD, hq]; rfl
  have hp' : (enrich env segment.Points).getD ((enrich env segment.Points).length - 1)
      (Point.zero env) = p := by
    rw [List.getD_eq_getElem?_getD, ← List.getLast?_eq_getElem?, hp]; rfl
  unfold convertSegment
  rw [loop_eq]
  dsimp only
  rw [if_pos hlen, hq', hp']
  unfold speedOf
  split
  · simp_all
  · refine ⟨rfl, rfl, rfl, rfl, ?_⟩
    simp_all
    rfl

end SegmentFacts

section PointFacts

variable {F : Type}

theorem firstPoint_raw (env : Env F) (pt : gpx.Point F) : (firstPoint env pt).raw = pt.raw := rfl

theorem nextPoint_raw (env : Env F) (q : Point F) (pt : gpx.Point F) :
    (nextPoint env q pt).raw = pt.raw := by
  unfold nextPoint; dsimp only; split <;> rfl

theorem nextPoint_Distance (env : Env F) (q : Point F) (pt : gpx.Point F) :
    (nextPoint env q pt).Distance = env.haversine pt.Latitude pt.Longitude q.Lat q.Lon := by
  unfold nextPoint; dsimp only; split <;> rfl

theorem nextPoint_Duration (env : Env F) (q : Point F) (pt : gpx.Point F) :
    (nextPoint env q pt).Duration =
      env.uintOfFloat (time.Duration.Seconds (pt.Time.Sub q.Time)) := by
  unfold nextPoint; dsimp only; split <;> rfl

theorem nextPoint_CumulativeDistance (env : Env F) (q : Point F) (pt : gpx.Point F) :
    (nextPoint env q pt).CumulativeDistance =
      env.add q.CumulativeDistance (nextPoint env q pt).Distance := by
  unfold nextPoint; dsimp only; split <;> rfl

theorem nextPoint_CumulativeDuration (env : Env F) (q : Point F) (pt : gpx.Point F) :
    (nextPoint env q pt).CumulativeDuration =
      env.uintAdd q.CumulativeDuration (nextPoint env q pt).Duration := by
  unfold nextPoint; dsimp only; split <;> rfl

theorem nextPoint_Speed (env : Env F) (q : Point F) (pt : gpx.Point F) :
    (nextPoint env q pt).Speed =
      speedOf env (nextPoint env q pt).Distance (nextPoint env q pt).Duration := by
  unfold nextPoint speedOf; dsimp only
  split <;> rfl

/-- Each enriched point after the first is `nextPoint` of the enriched point
before it and of the input point at its own index. -/
theorem enrichFrom_getElem? (env : Env F) (rest : List (gpx.Point F)) :
    ∀ (q0 : Point F) (i : Nat) (a : gpx.Point F), rest[i]? = some a →
      ∃ q, (q0 :: enrichFrom env q0 rest)[i]? = some q ∧
        (enrichFrom env q0 rest)[i]? = some (nextPoint env q a) := by
  induction rest with
  | nil => intro q0 i a h; simp at h
  | cons pt rest ih =>
    intro q0 i a h
    cases i with
    | zero =>
      simp only [List.getElem?_cons_zero, Option.some.injEq] at h
      subst h
      exact ⟨q0, rfl, by simp [enrichFrom]⟩
    | succ j =>
      simp only [List.getElem?_cons_succ] at h
      obtain ⟨q, h1, h2⟩ := ih (nextPoint env q0 pt) j a h
      exact ⟨q, by simpa [enrichFrom] using h1, by simpa [enrichFrom] using h2⟩

theorem enrich_getElem?_succ (env : Env F) (pts : List (gpx.Point F)) (i : Nat)
    (a : gpx.Point F) (h : pts[i + 1]? = some a) :
    ∃ q, (enrich env pts)[i]? = some q ∧ (enrich env pts)[i + 1]? = some (nextPoint env q a) := by
  cases pts with
  | nil => simp at h
  | cons pt rest =>
    simp only [List.getElem?_cons_succ] at h
    obtain ⟨q, h1, h2⟩ := enrichFrom_getElem? env rest (firstPoint env pt) i a h
    exact ⟨q, by simpa [enrich] using h1, by simpa [enrich] using h2⟩

theorem enrichFrom_raw (env : Env F) (rest : List (gpx.Point F)) :
    ∀ q, (enrichFrom env q rest).map Point.raw = rest.map gpx.Point.raw := by
  induction rest with
  | nil => intro q; rfl
  | cons pt rest ih => intro q; simp [enrichFrom, ih, nextPoint_raw]

theorem enrich_raw (env : Env F) (pts : List (gpx.Point F)) :
    (enrich env pts).map Point.raw = pts.map gpx.Point.raw := by
  cases pts with
  | nil => rfl
  | cons pt rest => simp [enrich, enrichFrom_raw, firstPoint_raw]

theorem enrich_getElem?_raw (env : Env F) (pts : List (gpx.Point F)) (i : Nat)
    (q : Point F) (b : gpx.Point F) (hq : (enrich env pts)[i]? = some q)
    (hb : pts[i]? = some b) : q.raw = b.raw := by
  have h := congrArg (fun l => l[i]?) (enrich_raw env pts)
  simp only [List.getElem?_map, hq, hb, Option.map_some'] at h
  exact Option.some.inj h

end PointFacts

section Cumulative

variable {F : Type}

theorem enrichFrom_cumulative (env : Env F) (rest : List (gpx.Point F)) :
    ∀ (q : Point F) (k : Nat) (p : Point F), (enrichFrom env q rest)[k]? = some p →
      p.CumulativeDistance =
          (((enrichFrom env q rest).take (k + 1)).map (fun x => x.Distance)).foldl env.add
            q.CumulativeDistance ∧
        p.CumulativeDuration =
          (q.CumulativeDuration +
            (((enrichFrom env q rest).take (k + 1)).map (fun x => x.Duration)).sum) %
              2 ^ env.uintBits := by
  induction rest with
  | nil => intro q k p h; simp [enrichFrom] at h
  | cons pt rest ih =>
    intro q k p h
    cases k with
    | zero =>
      simp only [enrichFrom, List.getElem?_cons_zero, Option.some.injEq] at h
      subst h
      constructor
      · simp [enrichFrom, nextPoint_CumulativeDistance]
      · simp [enrichFrom, nextPoint_CumulativeDuration, Env.uintAdd]
    | succ j =>
      simp only [enrichFrom, List.getElem?_cons_succ] at h
      obtain ⟨h1, h2⟩ := ih (nextPoint env q pt) j p h
      constructor
      · rw [h1]
        simp [enrichFrom, nextPoint_CumulativeDistance]
      · rw [h2]
        simp only [enrichFrom, List.take_succ_cons, List.map_cons, List.sum_cons,
          nextPoint_CumulativeDuration, Env.uintAdd]
        rw [Nat.mod_add_mod, Nat.add_assoc]

theorem enrich_cumulative (env : Env F) (pts : List (gpx.Point F)) (k : Nat) (p : Point F)
    (h : (enrich env pts)[k]? = some p) :
    p.CumulativeDistance = sumLeft env (((enrich env pts).take (k + 1)).map (fun x => x.Distance)) ∧
      p.CumulativeDuration =
        (((enrich env pts).take (k + 1)).map (fun x => x.Duration)).sum % 2 ^ env.uintBits := by
  cases pts with
  | nil => simp [enrich] at h
  | cons pt rest =>
    cases k with
    | zero =>
      simp only [enrich, List.getElem?_cons_zero, Option.some.injEq] at h
      subst h
      constructor
      · rfl
      · simp [enrich, firstPoint, convertPoint, Point.zero]
    | succ j =>
      simp only [enrich, List.getElem?_cons_succ] at h
      obtain ⟨h1, h2⟩ := enrichFrom_cumulative env rest (firstPoint env pt) j p h
      constructor
      · rw [h1]; rfl
      · rw [h2]
        simp [enrich, firstPoint, convertPoint, Point.zero]

theorem take_length_succ {α : Type} (l : List α) (k : Nat) (h : k + 1 = l.length) :
    l.take (k + 1) = l := by
  rw [h]; exact List.take_length l

end Cumulative

section Rollup

variable {F : Type}

theorem foldl_uintAdd (env : Env F) (l : List Nat) :
    ∀ a, l.foldl env.uintAdd (a % 2 ^ env.uintBits) = (a + l.sum) % 2 ^ env.uintBits := by
  induction l with
  | nil => intro a; rfl
  | cons d l ih =>
    intro a
    simp only [List.foldl_cons, List.sum_cons, Env.uintAdd]
    rw [Nat.mod_add_mod, ih, Nat.add_assoc]

theorem foldl_uintAdd_zero (env : Env F) (l : List Nat) :
    l.foldl env.uintAdd 0 = l.sum % 2 ^ env.uintBits := by
  have h := foldl_uintAdd env l 0
  rwa [Nat.zero_mod, Nat.zero_add] at h

/-- The `uint` sum is the sum of the natural numbers reduced modulo
`2 ^ bits`. -/
theorem uintSum_eq_sum_mod (env : Env F) (l : List Nat) :
    uintSum env l = l.sum % 2 ^ env.uintBits :=
  foldl_uintAdd_zero env l

/-- Without overflow the `uint` sum is the sum of the natural numbers. -/
theorem uintSum_eq_sum (env : Env F) (l : List Nat) (h : l.sum < 2 ^ env.uintBits) :
    uintSum env l = l.sum := by
  rw [uintSum_eq_sum_mod, Nat.mod_eq_of_lt h]

theorem foldl_trackBody (env : Env F) (segs : List (gpx.Segment F)) :
    ∀ t : Track F, segs.foldl (convertTrack.body env) t =
      { t with
        Segments := t.Segments ++ segs.map (convertSegment env)
        Duration := ((segs.map (convertSegment env)).map (fun s => s.Duration)).foldl
          env.uintAdd t.Duration
        Distance := ((segs.map (convertSegment env)).map (fun s => s.Distance)).foldl
          env.add t.Distance } := by
  induction segs with
  | nil => intro t; simp
  | cons seg segs ih =>
    intro t
    rw [List.foldl_cons, ih]
    simp [convertTrack.body]

theorem foldl_docBody (env : Env F) (tracks : List (gpx.Track F)) :
    ∀ doc : Doc F, tracks.foldl (parse.body env) doc =
      { doc with
        Tracks := doc.Tracks ++ tracks.map (convertTrack env)
        Duration := ((tracks.map (convertTrack env)).map (fun t => t.Duration)).foldl
          env.uintAdd doc.Duration
        Distance := ((tracks.map (convertTrack env)).map (fun t => t.Distance)).foldl
          env.add doc.Distance } := by
  induction tracks with
  | nil => intro doc; simp
  | cons tr tracks ih =>
    intro doc
    rw [List.foldl_cons, ih]
    simp [parse.body]

theorem convertTrack_Segments (env : Env F) (track : gpx.Track F) :
    (convertTrack env track).Segments = track.Segments.map (convertSegment env) := by
  unfold convertTrack convertTrack.loop
  rw [foldl_trackBody]
  dsimp only
  split <;> split <;> simp [Track.zero]

theorem convertTrack_Distance (env : Env F) (track : gpx.Track F) :
    (convertTrack env track).Distance =
      totalFrom env ((track.Segments.map (convertSegment env)).map (fun s => s.Distance)) := by
  unfold convertTrack convertTrack.loop
  rw [foldl_trackBody]
  dsimp only
  split <;> split <;> simp [Track.zero, totalFrom]

theorem convertTrack_Duration (env : Env F) (track : gpx.Track F) :
    (convertTrack env track).Duration =
      ((track.Segments.map (convertSegment env)).map (fun s => s.Duration)).sum %
        2 ^ env.uintBits := by
  rw [← foldl_uintAdd_zero]
  unfold convertTrack convertTrack.loop
  rw [foldl_trackBody]
  dsimp only
  split <;> split <;> simp [Track.zero]

theorem convertTrack_Speed (env : Env F) (track : gpx.Track F) :
    (convertTrack env track).Speed =
      speedOf env (convertTrack env track).Distance (convertTrack env track).Duration := by
  unfold convertTrack convertTrack.loop speedOf
  rw [foldl_trackBody]
  dsimp only
  split <;> split <;> simp_all [Track.zero]

theorem convertTrack_Start_End (env : Env F) (track : gpx.Track F) :
    (convertTrack env track).Start =
        ((track.Segments.map (convertSegment env)).head?.map (fun s => s.Start)).getD ⟨0⟩ ∧
      (convertTrack env track).End =
        ((track.Segments.map (convertSegment env)).getLast?.map (fun s => s.End)).getD ⟨0⟩ := by
  unfold convertTrack convertTrack.loop
  rw [foldl_trackBody]
  dsimp only
  cases hs : track.Segments with
  | nil => simp [Track.zero]
  | cons seg segs =>
    simp only [Track.zero, List.nil_append, List.map_cons, List.length_cons, List.length_map,
      gt_iff_lt, Nat.zero_lt_succ, if_true, List.head?_cons, Option.map_some', Option.getD_some]
    rw [List.getLast?_eq_getElem?]
    simp only [List.getD_eq_getElem?_getD, List.length_cons, List.length_map]
    split <;> simp

theorem parse_convert_Tracks (env : Env F) (gpxdoc : gpx.Document F) :
    (parse.convert env gpxdoc).Tracks = gpxdoc.Tracks.map (convertTrack env) := by
  unfold parse.convert
  dsimp only
  rw [foldl_docBody]
  dsimp only
  split <;> simp [Doc.zero]

theorem parse_convert_Version (env : Env F) (gpxdoc : gpx.Document F) :
    (parse.convert env gpxdoc).Version = gpxdoc.Version := by
  unfold parse.convert
  dsimp only
  rw [foldl_docBody]
  dsimp only
  split <;> rfl

theorem parse_convert_Distance (env : Env F) (gpxdoc : gpx.Document F) :
    (parse.convert env gpxdoc).Distance =
      totalFrom env ((gpxdoc.Tracks.map (convertTrack env)).map (fun t => t.Distance)) := by
  unfold parse.convert
  dsimp only
  rw [foldl_docBody]
  dsimp only
  split <;> simp [Doc.zero, totalFrom]

theorem parse_convert_Duration (env : Env F) (gpxdoc : gpx.Document F) :
    (parse.convert env gpxdoc).Duration =
      ((gpxdoc.Tracks.map (convertTrack env)).map (fun t => t.Duration)).sum %
        2 ^ env.uintBits := by
  rw [← foldl_uintAdd_zero]
  unfold parse.convert
  dsimp only
  rw [foldl_docBody]
  dsimp only
  split <;> simp [Doc.zero]

theorem parse_convert_Start_End (env : Env F) (gpxdoc : gpx.Document F) :
    (parse.convert env gpxdoc).Start =
        ((gpxdoc.Tracks.map (convertTrack env)).head?.map (fun t => t.Start)).getD ⟨0⟩ ∧
      (parse.convert env gpxdoc).End =
        ((gpxdoc.Tracks.map (convertTrack env)).getLast?.map (fun t => t.End)).getD ⟨0⟩ := by
  unfold parse.convert
  dsimp only
  rw [foldl_docBody]
  dsimp only
  cases hs : gpxdoc.Tracks with
  | nil => simp [Doc.zero]
  | cons tr trs =>
    simp only [Doc.zero, List.nil_append, List.map_cons, List.length_cons, List.length_map,
      gt_iff_lt, Nat.zero_lt_succ, if_true, List.head?_cons, Option.map_some', Option.getD_some]
    rw [List.getLast?_eq_getElem?]
    simp only [List.getD_eq_getElem?_getD, List.length_cons, List.length_map]
    simp

end Rollup

/-! ## The claims -/

section Claims

variable {F : Type}

/-- C1. In the points `convertSegment` returns, the cumulative distance of the
point at index `k` is the left-to-right `float64` sum of the distances of the
points `0..k`, and its cumulative duration is the `uint` sum of their
durations; for the last point the sums run over all the points of the
segment. -/
theorem C1_cumulative_sums (env : Env F) (segment : gpx.Segment F) (k : Nat) (p : Point F)
    (hk : (convertSegment env segment).Points[k]? = some p) :
    (p.CumulativeDistance =
        sumLeft env (((convertSegment env segment).Points.take (k + 1)).map
          (fun x => x.Distance)) ∧
      p.CumulativeDuration =
        uintSum env (((convertSegment env segment).Points.take (k + 1)).map
          (fun x => x.Duration))) ∧
    (k + 1 = (convertSegment env segment).Points.length →
      p.CumulativeDistance =
          sumLeft env ((convertSegment env segment).Points.map (fun x => x.Distance)) ∧
        p.CumulativeDuration =
          uintSum env ((convertSegment env segment).Points.map (fun x => x.Duration))) := by
  simp only [uintSum_eq_sum_mod]
  rw [convertSegment_points] at hk ⊢
  have h := enrich_cumulative env segment.Points k p hk
  refine ⟨h, fun hlast => ?_⟩
  rw [take_length_succ _ k hlast] at h
  exact h

theorem C1_cumulative_sums_witness :
    (convertSegment exactEnv sampleSegment).Points[2]? =
        some (nextPoint exactEnv (nextPoint exactEnv (firstPoint exactEnv (mkPoint 0 0 0 0))
          (mkPoint 0 1 3600 0)) (mkPoint 0 2 7200 0)) ∧
      (nextPoint exactEnv (nextPoint exactEnv (firstPoint exactEnv (mkPoint 0 0 0 0))
          (mkPoint 0 1 3600 0)) (mkPoint 0 2 7200 0)).CumulativeDistance =
        sumLeft exactEnv (((convertSegment exactEnv sampleSegment).Points.take (2 + 1)).map
          (fun x => x.Distance)) :=
  ⟨by simp [convertSegment_points, enrich, enrichFrom, sampleSegment],
   (C1_cumulative_sums exactEnv sampleSegment 2 _
      (by simp [convertSegment_points, enrich, enrichFrom, sampleSegment])).1.1⟩

/-- C2. For a segment with at least one point, `convertSegment` returns the
first input point's timestamp as `Start`, the last input point's timestamp as
`End`, and the last enriched point's cumulative distance and cumulative
duration as `Distance` and `Duration`. -/
theorem C2_segment_rollup (env : Env F) (segment : gpx.Segment F) (first last : gpx.Point F)
    (hfirst : segment.Points.head? = some first)
    (hlast : segment.Points.getLast? = some last) :
    (convertSegment env segment).Start = first.Time ∧
      (convertSegment env segment).End = last.Time ∧
      ∃ p, (convertSegment env segment).Points.getLast? = some p ∧
        (convertSegment env segment).Distance = p.CumulativeDistance ∧
        (convertSegment env segment).Duration = p.CumulativeDuration := by
  have hlen := enrich_length env segment.Points
  have hne : segment.Points ≠ [] := by
    intro h; rw [h] at hfirst; simp at hfirst
  have hne' : enrich env segment.Points ≠ [] := by
    intro h; rw [h] at hlen; exact hne (List.length_eq_zero.mp hlen.symm)
  obtain ⟨q, hq⟩ : ∃ q, (enrich env segment.Points)[0]? = some q := by
    cases h : enrich env segment.Points with
    | nil => exact absurd h hne'
    | cons a l => exact ⟨a, by simp⟩
  obtain ⟨p, hp⟩ : ∃ p, (enrich env segment.Points).getLast? = some p :=
    ⟨_, List.getLast?_eq_getLast _ hne'⟩
  obtain ⟨h1, h2, h3, h4, _⟩ := convertSegment_fields env segment q p hq hp
  have hq0 : segment.Points[0]? = some first := by
    rw [← hfirst]; cases segment.Points <;> simp
  have hqr := enrich_getElem?_raw env segment.Points 0 q first hq hq0
  have hp1 : (enrich env segment.Points)[segment.Points.length - 1]? = some p := by
    rw [← hlen, ← List.getLast?_eq_getElem?]; exact hp
  have hl1 : segment.Points[segment.Points.length - 1]? = some last := by
    rw [← List.getLast?_eq_getElem?]; exact hlast
  have hpr := enrich_getElem?_raw env segment.Points _ p last hp1 hl1
  refine ⟨?_, ?_, p, ?_, h3, h4⟩
  · rw [h1]; exact congrArg (fun r => r.2.2.2) hqr
  · rw [h2]; exact congrArg (fun r => r.2.2.2) hpr
  · rw [convertSegment_points]; exact hp

theorem C2_segment_rollup_witness :
    sampleSegment.Points.head? = some (mkPoint 0 0 0 0) ∧
      sampleSegment.Points.getLast? = some (mkPoint 0 2 7200 0) ∧
      (convertSegment exactEnv sampleSegment).Start = (mkPoint 0 0 0 0).Time ∧
      (convertSegment exactEnv sampleSegment).End = (mkPoint 0 2 7200 0).Time :=
  ⟨rfl, rfl,
   (C2_segment_rollup exactEnv sampleSegment (mkPoint 0 0 0 0) (mkPoint 0 2 7200 0) rfl rfl).1,
   (C2_segment_rollup exactEnv sampleSegment (mkPoint 0 0 0 0) (mkPoint 0 2 7200 0) rfl rfl).2.1⟩

/-- C3. For every track, empty segments included, `convertTrack` returns as
`Distance` the in-order `float64` total of the distances of its enriched
segments and as `Duration` the `uint` sum of their durations, the enriched
segments being `convertSegment` of the input segments, in order. -/
theorem C3_track_totals (env : Env F) (track : gpx.Track F) :
    (convertTrack env track).Segments = track.Segments.map (convertSegment env) ∧
      (convertTrack env track).Distance =
        totalFrom env ((convertTrack env track).Segments.map (fun s => s.Distance)) ∧
      (convertTrack env track).Duration =
        uintSum env ((convertTrack env track).Segments.map (fun s => s.Duration)) := by
  refine ⟨convertTrack_Segments env track, ?_, ?_⟩
  · rw [convertTrack_Segments]; exact convertTrack_Distance env track
  · rw [convertTrack_Segments, uintSum_eq_sum_mod]; exact convertTrack_Duration env track

/-- C4. For a decoded document `parse` succeeds with a `Doc` whose tracks are
`convertTrack` of the input tracks, whose `Distance` is the in-order `float64`
total of their distances, whose `Duration` is the `uint` sum of their
durations and whose `Version` is the decoded version string. -/
theorem C4_document_totals {ε : Type} (env : Env F) (gpxdoc : gpx.Document F) :
    ∃ doc : Doc F, parse env (Except.ok gpxdoc : Except ε (gpx.Document F)) = Except.ok doc ∧
      doc.Tracks = gpxdoc.Tracks.map (convertTrack env) ∧
      doc.Distance = totalFrom env (doc.Tracks.map (fun t => t.Distance)) ∧
      doc.Duration = uintSum env (doc.Tracks.map (fun t => t.Duration)) ∧
      doc.Version = gpxdoc.Version := by
  refine ⟨parse.convert env gpxdoc, rfl, parse_convert_Tracks env gpxdoc, ?_, ?_,
    parse_convert_Version env gpxdoc⟩
  · rw [parse_convert_Tracks]; exact parse_convert_Distance env gpxdoc
  · rw [parse_convert_Tracks, uintSum_eq_sum_mod]; exact parse_convert_Duration env gpxdoc

/-- C5. A track with at least one segment gets the `Start` of its first
enriched segment and the `End` of its last one; a track without segments keeps
the zero timestamp in both; a decoded document with at least one track gets
the `Start` of its first enriched track and the `End` of its last one. -/
theorem C5_start_end {ε : Type} (env : Env F) :
    (∀ (track : gpx.Track F) (s1 s2 : Segment F),
        (convertTrack env track).Segments.head? = some s1 →
        (convertTrack env track).Segments.getLast? = some s2 →
        (convertTrack env track).Start = s1.Start ∧ (convertTrack env track).End = s2.End) ∧
    (∀ track : gpx.Track F, track.Segments = [] →
        (convertTrack env track).Start = ⟨0⟩ ∧ (convertTrack env track).End = ⟨0⟩) ∧
    (∀ (gpxdoc : gpx.Document F) (t1 t2 : Track F),
        (gpxdoc.Tracks.map (convertTrack env)).head? = some t1 →
        (gpxdoc.Tracks.map (convertTrack env)).getLast? = some t2 →
        ∃ doc : Doc F, parse env (Except.ok gpxdoc : Except ε (gpx.Document F)) = Except.ok doc ∧
          doc.Tracks = gpxdoc.Tracks.map (convertTrack env) ∧
          doc.Start = t1.Start ∧ doc.End = t2.End) := by
  refine ⟨?_, ?_, ?_⟩
  · intro track s1 s2 h1 h2
    rw [convertTrack_Segments] at h1 h2
    have h := convertTrack_Start_End env track
    rw [h1, h2] at h
    exact h
  · intro track hnil
    have h := convertTrack_Start_End env track
    rw [hnil] at h
    exact h
  · intro gpxdoc t1 t2 h1 h2
    have h := parse_convert_Start_End env gpxdoc
    rw [h1, h2] at h
    exact ⟨parse.convert env gpxdoc, rfl, parse_convert_Tracks env gpxdoc, h⟩

theorem C5_start_end_witness :
    (convertTrack exactEnv sampleTrack).Segments.head? = some (convertSegment exactEnv ⟨[]⟩) ∧
      (convertTrack exactEnv sampleTrack).Segments.getLast? =
        some (convertSegment exactEnv sampleSegment) ∧
      (convertTrack exactEnv sampleTrack).Start = (convertSegment exactEnv ⟨[]⟩).Start ∧
      (convertTrack exactEnv sampleTrack).End = (convertSegment exactEnv sampleSegment).End :=
  ⟨by rw [convertTrack_Segments]; rfl, by rw [convertTrack_Segments]; rfl,
   (@C5_start_end ℚ Unit exactEnv).1 sampleTrack _ _
     (by rw [convertTrack_Segments]; rfl) (by rw [convertTrack_Segments]; rfl)⟩

/-- C6. For a segment with at least one point, the first point `convertSegment`
returns has zero `Distance`, `Duration`, `Speed`, `CumulativeDistance` and
`CumulativeDuration`, whatever the input point. -/
theorem C6_first_point (env : Env F) (segment : gpx.Segment F) (h : segment.Points ≠ []) :
    ∃ p, (convertSegment env segment).Points.head? = some p ∧
      p.Distance = env.zero ∧ p.Duration = 0 ∧ p.Speed = env.zero ∧
      p.CumulativeDistance = env.zero ∧ p.CumulativeDuration = 0 := by
  rw [convertSegment_points]
  cases hp : segment.Points with
  | nil => exact absurd hp h
  | cons pt rest => exact ⟨firstPoint env pt, rfl, rfl, rfl, rfl, rfl, rfl⟩

theorem C6_first_point_witness :
    sampleSegment.Points ≠ [] ∧
      ∃ p, (convertSegment exactEnv sampleSegment).Points.head? = some p ∧
        p.Distance = exactEnv.zero ∧ p.Duration = 0 ∧ p.Speed = exactEnv.zero ∧
        p.CumulativeDistance = exactEnv.zero ∧ p.CumulativeDuration = 0 :=
  ⟨by simp [sampleSegment], C6_first_point exactEnv sampleSegment (by simp [sampleSegment])⟩

/-- C8. The speed of an enriched point after the first, of an enriched segment
and of an enriched track is `speedOf` of the distance and duration of that
same point, segment or track: kilometres over hours when the duration is
positive, zero when it is zero.  For a track these are its own totals.  The
hours are computed as `Duration / 60 / 60`; where the arithmetic is exact
(`div` and `ofNat` those of a field) the speed is
`(Distance / 1000) / (Duration / 3600)`. -/
theorem C8_speed (env : Env F) :
    (∀ (d : F) (n : Nat), 0 < n →
        speedOf env d n = env.div (env.div d (env.ofNat 1000))
          (env.div (env.div (env.ofNat n) (env.ofNat 60)) (env.ofNat 60))) ∧
    (∀ d : F, speedOf env d 0 = env.zero) ∧
    (∀ (segment : gpx.Segment F) (i : Nat) (p : Point F), 0 < i →
        (convertSegment env segment).Points[i]? = some p →
        p.Speed = speedOf env p.Distance p.Duration) ∧
    (∀ segment : gpx.Segment F,
        (convertSegment env segment).Speed =
          speedOf env (convertSegment env segment).Distance
            (convertSegment env segment).Duration) ∧
    (∀ track : gpx.Track F,
        (convertTrack env track).Speed =
            speedOf env (convertTrack env track).Distance (convertTrack env track).Duration ∧
          (convertTrack env track).Distance =
            totalFrom env ((track.Segments.map (convertSegment env)).map (fun s => s.Distance)) ∧
          (convertTrack env track).Duration =
            uintSum env ((track.Segments.map (convertSegment env)).map (fun s => s.Duration))) ∧
    (∀ [Field F], (∀ a b : F, env.div a b = a / b) → (∀ n : Nat, env.ofNat n = (n : F)) →
        ∀ (d : F) (n : Nat), 0 < n → speedOf env d n = (d / 1000) / ((n : F) / 3600)) := by
  refine ⟨?_, ?_, ?_, ?_, ?_, ?_⟩
  · intro d n hn
    unfold speedOf
    rw [if_pos hn]
  · intro d; rfl
  · intro segment i p hi hp
    rw [convertSegment_points] at hp
    obtain ⟨j, rfl⟩ : ∃ j, i = j + 1 := ⟨i - 1, by omega⟩
    obtain ⟨a, ha⟩ : ∃ a, segment.Points[j + 1]? = some a := by
      have hlt : j + 1 < (enrich env segment.Points).length := by
        by_contra hge
        rw [List.getElem?_eq_none (by omega)] at hp
        exact Option.noConfusion hp
      rw [enrich_length] at hlt
      exact ⟨segment.Points[j + 1], List.getElem?_eq_getElem hlt⟩
    obtain ⟨q, _, hq⟩ := enrich_getElem?_succ env segment.Points j a ha
    rw [hq] at hp
    cases hp
    exact nextPoint_Speed env q a
  · intro segment
    cases hp : segment.Points with
    | nil => rw [convertSegment_nil env segment hp]; rfl
    | cons pt rest =>
      have hne : enrich env segment.Points ≠ [] := by rw [hp]; simp [enrich]
      obtain ⟨_, _, h3, h4, h5⟩ := convertSegment_fields env segment
        (firstPoint env pt) ((enrich env segment.Points).getLast hne)
        (by rw [hp]; simp [enrich]) (List.getLast?_eq_getLast _ hne)
      rw [h5, h3, h4]
  · intro track
    rw [uintSum_eq_sum_mod]
    exact ⟨convertTrack_Speed env track, convertTrack_Distance env track,
      convertTrack_Duration env track⟩
  · intro _ hdiv hof d n hn
    unfold speedOf
    rw [if_pos hn]
    simp only [hdiv, hof]
    rw [div_div ((n : F)) _ _]
    norm_num

theorem C8_speed_witness :
    (0 : Nat) < 1 ∧
      (convertSegment exactEnv sampleSegment).Points[1]? =
        some (nextPoint exactEnv (firstPoint exactEnv (mkPoint 0 0 0 0)) (mkPoint 0 1 3600 0)) ∧
      (nextPoint exactEnv (firstPoint exactEnv (mkPoint 0 0 0 0)) (mkPoint 0 1 3600 0)).Speed =
        speedOf exactEnv
          (nextPoint exactEnv (firstPoint exactEnv (mkPoint 0 0 0 0)) (mkPoint 0 1 3600 0)).Distance
          (nextPoint exactEnv (firstPoint exactEnv (mkPoint 0 0 0 0)) (mkPoint 0 1 3600 0)).Duration :=
  ⟨by decide, by simp [convertSegment_points, enrich, enrichFrom, sampleSegment],
   (C8_speed exactEnv).2.2.1 sampleSegment 1 _ (by decide)
     (by simp [convertSegment_points, enrich, enrichFrom, sampleSegment])⟩

/-- C9. `parse` keeps the shape and the order of its input: as many tracks,
in each track as many segments, in each segment as many points, and the
latitude, longitude, elevation and time of every enriched point are those of
the input point at the same place. -/
theorem C9_shape_preserved {ε : Type} (env : Env F) :
    (∀ segment : gpx.Segment F,
        (convertSegment env segment).Points.length = segment.Points.length ∧
        (convertSegment env segment).Points.map Point.raw = segment.Points.map gpx.Point.raw) ∧
    (∀ track : gpx.Track F,
        (convertTrack env track).Segments.length = track.Segments.length ∧
        (convertTrack env track).Segments = track.Segments.map (convertSegment env)) ∧
    (∀ gpxdoc : gpx.Document F,
        ∃ doc : Doc F, parse env (Except.ok gpxdoc : Except ε (gpx.Document F)) = Except.ok doc ∧
          doc.Tracks.length = gpxdoc.Tracks.length ∧
          doc.Tracks = gpxdoc.Tracks.map (convertTrack env) ∧
          doc.Tracks.map (fun t => t.Segments.map (fun s => s.Points.map Point.raw)) =
            gpxdoc.Tracks.map
              (fun t => t.Segments.map (fun s => s.Points.map gpx.Point.raw))) := by
  have hseg : ∀ segment : gpx.Segment F,
      (convertSegment env segment).Points.map Point.raw = segment.Points.map gpx.Point.raw := by
    intro segment; rw [convertSegment_points]; exact enrich_raw env segment.Points
  refine ⟨?_, ?_, ?_⟩
  · intro segment
    refine ⟨?_, hseg segment⟩
    rw [convertSegment_points]; exact enrich_length env segment.Points
  · intro track
    rw [convertTrack_Segments]
    exact ⟨List.length_map _ _, rfl⟩
  · intro gpxdoc
    refine ⟨parse.convert env gpxdoc, rfl, ?_, parse_convert_Tracks env gpxdoc, ?_⟩
    · rw [parse_convert_Tracks]; exact List.length_map _ _
    · rw [parse_convert_Tracks, List.map_map]
      apply List.map_congr_left
      intro t _
      simp only [Function.comp, convertTrack_Segments, List.map_map]
      apply List.map_congr_left
      intro s _
      exact hseg s

/-- C10. The distance of the enriched point at index `i > 0` is `haversine`
of the coordinates of input point `i` and of input point `i - 1` of the same
segment: it is a function of these two points alone. -/
theorem C10_distance_to_predecessor (env : Env F) (segment : gpx.Segment F) (i : Nat)
    (a b : gpx.Point F) (hi : 0 < i) (ha : segment.Points[i]? = some a)
    (hb : segment.Points[i - 1]? = some b) :
    ∃ p, (convertSegment env segment).Points[i]? = some p ∧
      p.Distance = env.haversine a.Latitude a.Longitude b.Latitude b.Longitude := by
  obtain ⟨j, rfl⟩ : ∃ j, i = j + 1 := ⟨i - 1, by omega⟩
  simp only [Nat.add_sub_cancel] at hb
  obtain ⟨q, hq, hp⟩ := enrich_getElem?_succ env segment.Points j a ha
  have hr := enrich_getElem?_raw env segment.Points j q b hq hb
  refine ⟨nextPoint env q a, by rw [convertSegment_points]; exact hp, ?_⟩
  rw [nextPoint_Distance]
  have h1 : q.Lat = b.Latitude := congrArg (fun r => r.1) hr
  have h2 : q.Lon = b.Longitude := congrArg (fun r => r.2.1) hr
  rw [h1, h2]

theorem C10_distance_to_predecessor_witness :
    (0 : Nat) < 1 ∧
      ∃ p, (convertSegment exactEnv sampleSegment).Points[1]? = some p ∧
        p.Distance = exactEnv.haversine (mkPoint 0 1 3600 0).Latitude
          (mkPoint 0 1 3600 0).Longitude (mkPoint 0 0 0 0).Latitude (mkPoint 0 0 0 0).Longitude :=
  ⟨by decide,
   C10_distance_to_predecessor exactEnv sampleSegment 1 (mkPoint 0 1 3600 0) (mkPoint 0 0 0 0)
     (by decide) (by simp [sampleSegment]) (by simp [sampleSegment])⟩

end Claims

/-! ## Rounding to binary64: what the nearest value lies between -/

namespace f64

theorem gridShift_pos_le (fuel : Nat) :
    ∀ q, 0 < gridShift fuel q → 2 ^ (52 + gridShift fuel q) ≤ q := by
  induction fuel with
  | zero => intro q h; simp [gridShift] at h
  | succ fuel ih =>
    intro q h
    unfold gridShift at h ⊢
    by_cases hq : q < 2 ^ 53
    · rw [if_pos hq] at h; exact absurd h (Nat.lt_irrefl 0)
    · rw [if_neg hq]
      rcases Nat.eq_zero_or_pos (gridShift fuel (q / 2)) with h0 | hpos
      · rw [h0]; exact Nat.le_of_not_lt hq
      · have := ih (q / 2) hpos
        have h2 : 2 * (q / 2) ≤ q := Nat.mul_div_le q 2
        calc 2 ^ (52 + (gridShift fuel (q / 2) + 1))
            = 2 * 2 ^ (52 + gridShift fuel (q / 2)) := by rw [← Nat.add_assoc, Nat.pow_succ, Nat.mul_comm]
          _ ≤ 2 * (q / 2) := Nat.mul_le_mul_left 2 this
          _ ≤ q := h2

/-- Bounds of the two candidates of `roundRat`. -/
theorem roundRat_between (num den : Nat) (hden : 0 < den) :
    num / (den * 2 ^ gridShift (num / den) (num / den)) * 2 ^ gridShift (num / den) (num / den)
        ≤ roundRat num den ∧
      roundRat num den ≤
        (num / (den * 2 ^ gridShift (num / den) (num / den)) + 1) *
          2 ^ gridShift (num / den) (num / den) ∧
      (num % (den * 2 ^ gridShift (num / den) (num / den)) = 0 →
        roundRat num den =
          num / (den * 2 ^ gridShift (num / den) (num / den)) *
            2 ^ gridShift (num / den) (num / den)) := by
  have hD : 0 < den * 2 ^ gridShift (num / den) (num / den) :=
    Nat.mul_pos hden (Nat.pow_pos (by decide))
  unfold roundRat
  dsimp only
  split
  · rename_i h
    refine ⟨Nat.mul_le_mul_right _ (Nat.le_succ _), Nat.le_refl _, ?_⟩
    intro hr
    rw [hr] at h
    exfalso
    rcases h with h | h
    · exact Nat.not_lt_zero _ h
    · have := h.1; omega
  · exact ⟨Nat.le_refl _, Nat.mul_le_mul_right _ (Nat.le_succ _), fun _ => rfl⟩

theorem roundRat_le (num den m t : Nat) (hden : 0 < den) (hm : m < 2 ^ 53)
    (h : num ≤ m * 2 ^ t * den) : roundRat num den ≤ m * 2 ^ t := by
  obtain ⟨_, hup, hex⟩ := roundRat_between num den hden
  generalize hs : gridShift (num / den) (num / den) = s at hup hex
  have hg : 0 < 2 ^ s := Nat.pow_pos (by decide)
  have hD : 0 < den * 2 ^ s := Nat.mul_pos hden hg
  have hq : num / den ≤ m * 2 ^ t := Nat.div_le_of_le_mul (by rw [Nat.mul_comm]; exact h)
  by_cases hts : s ≤ t
  · -- the bound lies on the grid
    obtain ⟨e, rfl⟩ : ∃ e, t = s + e := ⟨t - s, by omega⟩
    have hy : m * 2 ^ (s + e) = m * 2 ^ e * 2 ^ s := by rw [Nat.pow_add]; ring
    rw [hy] at h ⊢
    have hdm := Nat.div_add_mod num (den * 2 ^ s)
    by_cases hr : num % (den * 2 ^ s) = 0
    · rw [hex hr]
      apply Nat.mul_le_mul_right
      have h1 : den * 2 ^ s * (num / (den * 2 ^ s)) ≤ den * 2 ^ s * (m * 2 ^ e) := by
        calc den * 2 ^ s * (num / (den * 2 ^ s)) ≤ num := Nat.mul_div_le _ _
          _ ≤ m * 2 ^ e * 2 ^ s * den := h
          _ = den * 2 ^ s * (m * 2 ^ e) := by ring
      exact Nat.le_of_mul_le_mul_left h1 hD
    · apply Nat.le_trans hup
      apply Nat.mul_le_mul_right
      have h1 : den * 2 ^ s * (num / (den * 2 ^ s)) < den * 2 ^ s * (m * 2 ^ e) := by
        calc den * 2 ^ s * (num / (den * 2 ^ s)) < num := by omega
          _ ≤ m * 2 ^ e * 2 ^ s * den := h
          _ = den * 2 ^ s * (m * 2 ^ e) := by ring
      exact Nat.lt_of_mul_lt_mul_left h1
  · -- the bound is below the binade of the quotient
    exfalso
    have hspos : 0 < s := by omega
    have hlow := gridShift_pos_le (num / den) (num / den) (by rw [hs]; exact hspos)
    rw [hs] at hlow
    have : m * 2 ^ t < 2 ^ (52 + s) := by
      calc m * 2 ^ t < 2 ^ 53 * 2 ^ t := Nat.mul_lt_mul_of_pos_right hm (Nat.pow_pos (by decide))
        _ = 2 ^ (53 + t) := by rw [Nat.pow_add]
        _ ≤ 2 ^ (52 + s) := Nat.pow_le_pow_right (by decide) (by omega)
    omega

theorem le_roundRat (num den m t : Nat) (hden : 0 < den) (hm : m < 2 ^ 53)
    (h : m * 2 ^ t * den ≤ num) : m * 2 ^ t ≤ roundRat num den := by
  obtain ⟨hlo, _, _⟩ := roundRat_between num den hden
  generalize hs : gridShift (num / den) (num / den) = s at hlo
  have hg : 0 < 2 ^ s := Nat.pow_pos (by decide)
  have hD : 0 < den * 2 ^ s := Nat.mul_pos hden hg
  apply Nat.le_trans _ hlo
  by_cases hts : s ≤ t
  · obtain ⟨e, rfl⟩ : ∃ e, t = s + e := ⟨t - s, by omega⟩
    have hy : m * 2 ^ (s + e) = m * 2 ^ e * 2 ^ s := by rw [Nat.pow_add]; ring
    rw [hy] at h ⊢
    apply Nat.mul_le_mul_right
    rw [Nat.le_div_iff_mul_le hD]
    calc m * 2 ^ e * (den * 2 ^ s) = m * 2 ^ e * 2 ^ s * den := by ring
      _ ≤ num := h
  · have hspos : 0 < s := by omega
    have hlow := gridShift_pos_le (num / den) (num / den) (by rw [hs]; exact hspos)
    rw [hs] at hlow
    have h1 : m * 2 ^ t ≤ 2 ^ 52 * 2 ^ s := by
      have : m * 2 ^ t < 2 ^ (52 + s) := by
        calc m * 2 ^ t < 2 ^ 53 * 2 ^ t := Nat.mul_lt_mul_of_pos_right hm (Nat.pow_pos (by decide))
          _ = 2 ^ (53 + t) := by rw [Nat.pow_add]
          _ ≤ 2 ^ (52 + s) := Nat.pow_le_pow_right (by decide) (by omega)
      rw [Nat.pow_add] at this
      exact Nat.le_of_lt this
    apply Nat.le_trans h1
    apply Nat.mul_le_mul_right
    rw [← Nat.div_div_eq_div_mul, Nat.le_div_iff_mul_le hg, ← Nat.pow_add]
    exact hlow

theorem roundRat_exact (m t : Nat) (hm : m < 2 ^ 53) : roundRat (m * 2 ^ t) 1 = m * 2 ^ t :=
  Nat.le_antisymm (roundRat_le _ 1 m t (by decide) hm (by simp))
    (le_roundRat _ 1 m t (by decide) hm (by simp))

theorem roundRat_zero (den : Nat) : roundRat 0 den = 0 := by
  simp [roundRat, gridShift]

theorem round_natCast (k den : Nat) : round (k : Int) den = (roundRat k den : Int) := by
  unfold round
  rcases Nat.eq_zero_or_pos k with h | h
  · subst h; simp [roundRat_zero]
  · have : Int.sign (k : Int) = 1 := Int.sign_eq_one_of_pos (by exact_mod_cast h)
    rw [this, Int.natAbs_ofNat, Int.one_mul]

theorem ofInt_natCast (n : Nat) (h : n < 2 ^ 53) : ofInt (n : Int) = ((n * scale : Nat) : Int) := by
  unfold ofInt
  rw [← Int.natCast_mul, round_natCast]
  exact congrArg Nat.cast (roundRat_exact n 1074 h)

theorem add_natCast (a b : Nat) : add (a : Int) (b : Int) = (roundRat (a + b) 1 : Int) := by
  unfold add
  rw [← Int.natCast_add, round_natCast]

theorem div_natCast (a b : Nat) (hb : 0 < b) :
    div (a : Int) (b : Int) = (roundRat (a * scale) b : Int) := by
  unfold div
  have : Int.sign (b : Int) = 1 := Int.sign_eq_one_of_pos (by exact_mod_cast hb)
  rw [this, Int.one_mul, ← Int.natCast_mul, round_natCast, Int.natAbs_ofNat]

theorem scale_pos : 0 < scale := by
  unfold scale
  exact pow_pos (by decide) 1074

/-- Rounding either keeps the lower candidate or, from the midpoint on, takes
the upper one. -/
theorem roundRat_cases (num den : Nat) :
    roundRat num den =
        num / (den * 2 ^ gridShift (num / den) (num / den)) *
          2 ^ gridShift (num / den) (num / den) ∨
      (roundRat num den =
          (num / (den * 2 ^ gridShift (num / den) (num / den)) + 1) *
            2 ^ gridShift (num / den) (num / den) ∧
        den * 2 ^ gridShift (num / den) (num / den) ≤
          2 * (num % (den * 2 ^ gridShift (num / den) (num / den)))) := by
  unfold roundRat
  dsimp only
  split
  · rename_i h
    right
    refine ⟨rfl, ?_⟩
    rcases h with h | h
    · exact Nat.le_of_lt h
    · exact Nat.le_of_eq h.1.symm
  · left; rfl

/-- The rounded quotient `nsec / 1e9` is at most the binary64 value just
below `1 - 2 ^ (-30)`. -/
theorem fraction_le (nsec : Nat) (h : nsec < 1000000000) :
    roundRat (nsec * scale * scale) (1000000000 * scale) ≤ (2 ^ 53 - 2 ^ 23 - 1) * 2 ^ 1021 := by
  apply roundRat_le _ _ _ _ (Nat.mul_pos (by decide) scale_pos) (by norm_num)
  have h1 : nsec * 2 ^ 53 ≤ (2 ^ 53 - 2 ^ 23 - 1) * 1000000000 := by
    have : nsec ≤ 999999999 := by omega
    calc nsec * 2 ^ 53 ≤ 999999999 * 2 ^ 53 := Nat.mul_le_mul_right _ this
      _ ≤ (2 ^ 53 - 2 ^ 23 - 1) * 1000000000 := by norm_num
  have hs : scale = 2 ^ 53 * 2 ^ 1021 := by unfold scale; rw [← Nat.pow_add]
  rw [hs]
  generalize (2 : Nat) ^ 1021 = P
  calc nsec * (2 ^ 53 * P) * (2 ^ 53 * P) = nsec * 2 ^ 53 * (P * (2 ^ 53 * P)) := by ring
    _ ≤ (2 ^ 53 - 2 ^ 23 - 1) * 1000000000 * (P * (2 ^ 53 * P)) := Nat.mul_le_mul_right _ h1
    _ = (2 ^ 53 - 2 ^ 23 - 1) * P * (1000000000 * (2 ^ 53 * P)) := by ring

/-- For fewer than `2 ^ 24` whole seconds, the binary64 sum of the seconds and
of the rounded fraction has the whole seconds as its integer part. -/
theorem seconds_sum (sec frac : Nat) (hsec : sec < 2 ^ 24)
    (hfrac : frac ≤ (2 ^ 53 - 2 ^ 23 - 1) * 2 ^ 1021) :
    roundRat (sec * scale + frac) 1 / scale = sec := by
  have hs : scale = 2 ^ 53 * 2 ^ 1021 := by unfold scale; rw [← Nat.pow_add]
  have hP : 0 < (2 : Nat) ^ 1021 := pow_pos (by decide) 1021
  have hlo : sec * scale ≤ roundRat (sec * scale + frac) 1 :=
    le_roundRat (sec * scale + frac) 1 sec 1074 (by decide)
      (Nat.lt_of_lt_of_le hsec (by norm_num)) (by rw [Nat.mul_one]; exact Nat.le_add_right _ _)
  have hlt : roundRat (sec * scale + frac) 1 < (sec + 1) * scale := by
    -- the sum itself is below the next whole second
    have hx : sec * scale + frac + (2 ^ 23 + 1) * 2 ^ 1021 ≤ (sec + 1) * scale := by
      have e0 : (sec + 1) * scale = sec * scale + scale := by
        rw [Nat.add_mul, Nat.one_mul]
      rw [e0]
      generalize sec * scale = T
      rw [hs]
      generalize (2 : Nat) ^ 1021 = P at hfrac ⊢
      omega
    rcases roundRat_cases (sec * scale + frac) 1 with h | ⟨h, hhalf⟩
    · rw [h]
      simp only [Nat.one_mul]
      have := Nat.div_mul_le_self (sec * scale + frac)
        (2 ^ gridShift ((sec * scale + frac) / 1) ((sec * scale + frac) / 1))
      omega
    · rw [h]
      simp only [Nat.one_mul, Nat.div_one] at hhalf ⊢
      generalize hsd : gridShift (sec * scale + frac) (sec * scale + frac) = s at hhalf ⊢
      -- the grid is no coarser than `2 ^ 1045`
      have hg : 2 ^ s ≤ 2 ^ 24 * 2 ^ 1021 := by
        rw [← Nat.pow_add]
        apply Nat.pow_le_pow_right (by decide)
        rcases Nat.eq_zero_or_pos s with h0 | hpos
        · omega
        · have hlow := gridShift_pos_le (sec * scale + frac) (sec * scale + frac)
            (by rw [hsd]; exact hpos)
          rw [hsd] at hlow
          have hxlt : sec * scale + frac < 2 ^ 24 * scale := by
            have h1 : (sec + 1) * scale ≤ 2 ^ 24 * scale := Nat.mul_le_mul_right _ hsec
            exact Nat.lt_of_lt_of_le (Nat.lt_of_lt_of_le (Nat.lt_of_lt_of_le
              (Nat.lt_add_of_pos_right (Nat.mul_pos (by norm_num) hP)) hx) (Nat.le_refl _)) h1
          have h2 : 2 ^ 24 * scale = 2 ^ (24 + 1074) := by unfold scale; rw [Nat.pow_add]
          rw [h2] at hxlt
          have hlt2 := (Nat.pow_lt_pow_iff_right (by decide : 1 < 2)).mp
            (Nat.lt_of_le_of_lt hlow hxlt)
          omega
      have hdm := Nat.div_add_mod (sec * scale + frac) (2 ^ s)
      have hmul : ((sec * scale + frac) / 2 ^ s + 1) * 2 ^ s =
          2 ^ s * ((sec * scale + frac) / 2 ^ s) + 2 ^ s := by ring
      rw [hmul]
      generalize (2 : Nat) ^ 1021 = P at hx hg hP
      generalize (2 : Nat) ^ s = G at hg hdm hhalf ⊢
      generalize G * ((sec * scale + frac) / G) = A at hdm ⊢
      generalize (sec * scale + frac) % G = r at hdm hhalf
      omega
  exact Nat.div_eq_of_lt_le (by rw [Nat.mul_comm] at hlo; rw [Nat.mul_comm]; exact hlo)
    (by rw [Nat.mul_comm] at hlt; rw [Nat.mul_comm]; exact hlt)

end f64

/-! ## `uint(d.Seconds())` for a short non-negative duration -/

section Seconds

variable {F : Type}

theorem Seconds_trunc (d : Nat) (h : d / 1000000000 < 2 ^ 24) :
    f64.trunc (time.Duration.Seconds (d : Int)) = ((d / 1000000000 : Nat) : Int) := by
  have e1 : (d : Int).tdiv 1000000000 = ((d / 1000000000 : Nat) : Int) :=
    (Int.ofNat_tdiv d 1000000000).symm
  have e2 : (d : Int).tmod 1000000000 = ((d % 1000000000 : Nat) : Int) :=
    (Int.ofNat_tmod d 1000000000).symm
  have hn : d % 1000000000 < 1000000000 := Nat.mod_lt _ (by decide)
  have e3 : f64.ofInt 1000000000 = ((1000000000 * f64.scale : Nat) : Int) :=
    f64.ofInt_natCast 1000000000 (by norm_num)
  unfold time.Duration.Seconds
  dsimp only
  rw [e1, e2, e3, f64.ofInt_natCast _ (Nat.lt_of_lt_of_le h (by norm_num)),
    f64.ofInt_natCast _ (Nat.lt_of_lt_of_le hn (by norm_num)),
    f64.div_natCast _ _ (Nat.mul_pos (by decide) f64.scale_pos), f64.add_natCast]
  unfold f64.trunc
  rw [← Int.ofNat_tdiv]
  exact congrArg Nat.cast (f64.seconds_sum _ _ h (f64.fraction_le _ hn))

theorem uintOfFloat_small (env : Env F) (x : Int) (n : Nat) (hx : f64.trunc x = (n : Int))
    (hn : n < 2 ^ 24) : env.uintOfFloat x = n := by
  unfold Env.uintOfFloat
  dsimp only
  rw [hx]
  have hb : (n : Int) < 2 ^ env.uintBits := by
    have h32 : (2 : Int) ^ 32 ≤ 2 ^ env.uintBits := by
      unfold Env.uintBits
      split <;> norm_num
    have : (n : Int) < 2 ^ 24 := by exact_mod_cast hn
    have h24 : (2 : Int) ^ 24 ≤ 2 ^ 32 := by norm_num
    omega
  rw [if_pos ⟨Int.ofNat_zero_le n, hb⟩]
  rfl

theorem Sub_small (t u : time.Time) (d : Nat) (hd : t.ns - u.ns = (d : Int))
    (h : d / 1000000000 < 2 ^ 24) : t.Sub u = (d : Int) := by
  have h1 : d < 2 ^ 24 * 1000000000 := by
    have := Nat.div_add_mod d 1000000000
    have := Nat.mod_lt d (show 0 < 1000000000 by decide)
    have h24 : (2 : Nat) ^ 24 = 16777216 := by norm_num
    omega
  have h2 : (d : Int) < 2 ^ 24 * 1000000000 := by exact_mod_cast h1
  unfold time.Time.Sub time.minDuration time.maxDuration
  dsimp only
  rw [hd]
  have h63 : (2 : Int) ^ 63 = 9223372036854775808 := by norm_num
  have h24 : (2 : Int) ^ 24 = 16777216 := by norm_num
  have h0 : (0 : Int) ≤ d := Int.ofNat_zero_le d
  rw [if_neg (by omega), if_neg (by omega)]

end Seconds

/-! ## The duration between consecutive points -/

section DurationClaim

variable {F : Type}

/-- C7, amended. For the point at index `i > 0` whose timestamp is not earlier
than that of point `i - 1` and follows it by less than `2 ^ 24` seconds
(16777216 s, about 194 days), `Duration` is the time difference in whole
seconds, the fraction discarded. -/
theorem C7_duration_whole_seconds (env : Env F) (segment : gpx.Segment F) (i : Nat)
    (a b : gpx.Point F) (hi : 0 < i) (ha : segment.Points[i]? = some a)
    (hb : segment.Points[i - 1]? = some b) (hord : b.Time.ns ≤ a.Time.ns)
    (hgap : a.Time.ns - b.Time.ns < 2 ^ 24 * 1000000000) :
    ∃ p, (convertSegment env segment).Points[i]? = some p ∧
      (p.Duration : Int) = wholeSeconds a.Time b.Time := by
  obtain ⟨j, rfl⟩ : ∃ j, i = j + 1 := ⟨i - 1, by omega⟩
  simp only [Nat.add_sub_cancel] at hb
  obtain ⟨q, hq, hp⟩ := enrich_getElem?_succ env segment.Points j a ha
  have hr := enrich_getElem?_raw env segment.Points j q b hq hb
  have hqt : q.Time = b.Time := congrArg (fun r => r.2.2.2) hr
  obtain ⟨d, hd⟩ : ∃ d : Nat, a.Time.ns - b.Time.ns = (d : Int) :=
    ⟨(a.Time.ns - b.Time.ns).toNat, (Int.toNat_of_nonneg (by omega)).symm⟩
  have hsec : d / 1000000000 < 2 ^ 24 := by
    have h1 : (d : Int) < 2 ^ 24 * 1000000000 := by rw [← hd]; exact hgap
    have h2 : d < 2 ^ 24 * 1000000000 := by exact_mod_cast h1
    exact Nat.div_lt_of_lt_mul (by rw [Nat.mul_comm]; exact h2)
  refine ⟨nextPoint env q a, by rw [convertSegment_points]; exact hp, ?_⟩
  rw [nextPoint_Duration, hqt, Sub_small a.Time b.Time d hd hsec,
    uintOfFloat_small env _ _ (Seconds_trunc d hsec) hsec]
  unfold wholeSeconds
  rw [hd]
  exact Int.ofNat_tdiv d 1000000000

theorem C7_duration_whole_seconds_witness :
    (0 : Nat) < 1 ∧
      (mkPoint 0 0 0 0).Time.ns ≤ (mkPoint 0 1 3600 0).Time.ns ∧
      ∃ p, (convertSegment exactEnv sampleSegment).Points[1]? = some p ∧
        (p.Duration : Int) = wholeSeconds (mkPoint 0 1 3600 0).Time (mkPoint 0 0 0 0).Time :=
  ⟨by decide, by decide,
   C7_duration_whole_seconds exactEnv sampleSegment 1 (mkPoint 0 1 3600 0) (mkPoint 0 0 0 0)
     (by decide) (by simp [sampleSegment]) (by simp [sampleSegment]) (by decide) (by decide)⟩

set_option maxRecDepth 100000 in
set_option exponentiation.threshold 2048 in
/-- C7 as stated fails.  Two points in temporal order 16777216.999999999 s
apart: the binary64 sum `16777216 + 0.999999999` rounds to `16777217`, which
becomes the `Duration`, one more than the whole seconds of the gap.  Two
points 10000000000 s apart: `Time.Sub` returns the largest `Duration`, and the
point's `Duration` is 9223372036. -/
theorem C7_counterexample :
    ((mkPoint 0 0 0 0).Time.ns ≤ (mkPoint 0 1 16777216 999999999).Time.ns ∧
      wholeSeconds (mkPoint 0 1 16777216 999999999).Time (mkPoint 0 0 0 0).Time = 16777216 ∧
      (convertSegment exactEnv longGapSegment).Points.map (fun p => p.Duration) =
        [0, 16777217]) ∧
    ((mkPoint 0 0 0 0).Time.ns ≤ (mkPoint 0 1 10000000000 0).Time.ns ∧
      wholeSeconds (mkPoint 0 1 10000000000 0).Time (mkPoint 0 0 0 0).Time = 10000000000 ∧
      (convertSegment exactEnv centuriesSegment).Points.map (fun p => p.Duration) =
        [0, 9223372036]) := by
  refine ⟨⟨by decide, by decide, ?_⟩, ⟨by decide, by decide, ?_⟩⟩
  · rw [convertSegment_points]
    simp only [longGapSegment, enrich, enrichFrom, List.map_cons, List.map_nil,
      nextPoint_Duration]
    decide
  · rw [convertSegment_points]
    simp only [centuriesSegment, enrich, enrichFrom, List.map_cons, List.map_nil,
      nextPoint_Duration]
    decide

end DurationClaim

/-! ## Empty inputs, equal timestamps, siblings -/

section Degenerate

variable {F : Type}

/-- C11. For a segment without points `convertSegment` returns no points, zero
`Distance`, `Duration` and `Speed`, and the zero timestamp as `Start` and
`End`. -/
theorem C11_empty_segment (env : Env F) :
    (convertSegment env ⟨[]⟩).Points = [] ∧
      (convertSegment env ⟨[]⟩).Distance = env.zero ∧
      (convertSegment env ⟨[]⟩).Duration = 0 ∧
      (convertSegment env ⟨[]⟩).Speed = env.zero ∧
      (convertSegment env ⟨[]⟩).Start = ⟨0⟩ ∧
      (convertSegment env ⟨[]⟩).End = ⟨0⟩ := by
  rw [convertSegment_nil env ⟨[]⟩ rfl]
  exact ⟨rfl, rfl, rfl, rfl, rfl, rfl⟩

/-- C12. For a decoded document without tracks `parse` succeeds with a `Doc`
of zero `Distance` and `Duration`, no tracks, the input version, and the zero
timestamp as `Start` and `End`. -/
theorem C12_empty_document {ε : Type} (env : Env F) (version : String) :
    ∃ doc : Doc F,
      parse env (Except.ok ⟨version, []⟩ : Except ε (gpx.Document F)) = Except.ok doc ∧
      doc.Distance = env.zero ∧ doc.Duration = 0 ∧ doc.Tracks = [] ∧
      doc.Version = version ∧ doc.Start = ⟨0⟩ ∧ doc.End = ⟨0⟩ :=
  ⟨parse.convert env ⟨version, []⟩, rfl, rfl, rfl, rfl, rfl, rfl, rfl⟩

/-- C14. When point `i > 0` carries the same timestamp as point `i - 1`, the
enriched point `i` has `Duration = 0` and `Speed = 0`: the division is not
reached, whatever the two points' coordinates. -/
theorem C14_equal_timestamps (env : Env F) (segment : gpx.Segment F) (i : Nat)
    (a b : gpx.Point F) (hi : 0 < i) (ha : segment.Points[i]? = some a)
    (hb : segment.Points[i - 1]? = some b) (heq : a.Time = b.Time) :
    ∃ p, (convertSegment env segment).Points[i]? = some p ∧
      p.Duration = 0 ∧ p.Speed = env.zero := by
  obtain ⟨j, rfl⟩ : ∃ j, i = j + 1 := ⟨i - 1, by omega⟩
  simp only [Nat.add_sub_cancel] at hb
  obtain ⟨q, hq, hp⟩ := enrich_getElem?_succ env segment.Points j a ha
  have hr := enrich_getElem?_raw env segment.Points j q b hq hb
  have hqt : q.Time = b.Time := congrArg (fun r => r.2.2.2) hr
  have hd : a.Time.ns - b.Time.ns = ((0 : Nat) : Int) := by rw [heq]; simp
  have hdur : (nextPoint env q a).Duration = 0 := by
    rw [nextPoint_Duration, hqt, Sub_small a.Time b.Time 0 hd (by norm_num),
      uintOfFloat_small env _ _ (Seconds_trunc 0 (by norm_num)) (by norm_num)]
  refine ⟨nextPoint env q a, by rw [convertSegment_points]; exact hp, hdur, ?_⟩
  rw [nextPoint_Speed, hdur]
  rfl

theorem C14_equal_timestamps_witness :
    (0 : Nat) < 1 ∧ (mkPoint 0 1 7 0).Time = (mkPoint 0 0 7 0).Time ∧
      ∃ p, (convertSegment exactEnv ⟨[mkPoint 0 0 7 0, mkPoint 0 1 7 0]⟩).Points[1]? = some p ∧
        p.Duration = 0 ∧ p.Speed = exactEnv.zero :=
  ⟨by decide, rfl,
   C14_equal_timestamps exactEnv ⟨[mkPoint 0 0 7 0, mkPoint 0 1 7 0]⟩ 1 (mkPoint 0 1 7 0)
     (mkPoint 0 0 7 0) (by decide) (by simp) (by simp) rfl⟩

/-- C18. The enriched segment at position `j` of a track is `convertSegment`
of the input segment at position `j` alone, and the enriched track at position
`j` of a document is `convertTrack` of the input track at position `j` alone. -/
theorem C18_siblings_independent {ε : Type} (env : Env F) :
    (∀ (track : gpx.Track F) (j : Nat),
        (convertTrack env track).Segments[j]? = (track.Segments[j]?).map (convertSegment env)) ∧
    (∀ (gpxdoc : gpx.Document F) (j : Nat),
        ∃ doc : Doc F, parse env (Except.ok gpxdoc : Except ε (gpx.Document F)) = Except.ok doc ∧
          doc.Tracks[j]? = (gpxdoc.Tracks[j]?).map (convertTrack env)) := by
  constructor
  · intro track j
    rw [convertTrack_Segments, List.getElem?_map]
  · intro gpxdoc j
    refine ⟨parse.convert env gpxdoc, rfl, ?_⟩
    rw [parse_convert_Tracks, List.getElem?_map]

/-- C20. A track whose first segment has no points gets the zero timestamp as
`Start`, and a track whose last segment has no points gets it as `End`,
whatever its other segments hold; `Distance` and `Duration` are the totals
over all its enriched segments all the same. -/
theorem C20_empty_end_segments (env : Env F) (track : gpx.Track F) :
    (∀ first : gpx.Segment F, track.Segments.head? = some first → first.Points = [] →
        (convertTrack env track).Start = ⟨0⟩) ∧
    (∀ last : gpx.Segment F, track.Segments.getLast? = some last → last.Points = [] →
        (convertTrack env track).End = ⟨0⟩) ∧
    (convertTrack env track).Distance =
      totalFrom env ((track.Segments.map (convertSegment env)).map (fun s => s.Distance)) ∧
    (convertTrack env track).Duration =
      uintSum env ((track.Segments.map (convertSegment env)).map (fun s => s.Duration)) := by
  obtain ⟨hs, he⟩ := convertTrack_Start_End env track
  refine ⟨?_, ?_, convertTrack_Distance env track, ?_⟩
  · intro first hfirst hnil
    rw [hs, List.head?_map, hfirst]
    simp [convertSegment_nil env first hnil, Segment.zero]
  · intro last hlast hnil
    rw [he, List.getLast?_map, hlast]
    simp [convertSegment_nil env last hnil, Segment.zero]
  · rw [uintSum_eq_sum_mod]; exact convertTrack_Duration env track

theorem C20_empty_end_segments_witness :
    sampleTrack.Segments.head? = some ⟨[]⟩ ∧
      (convertTrack exactEnv sampleTrack).Start = ⟨0⟩ ∧
      (convertTrack exactEnv sampleTrack).Distance =
        totalFrom exactEnv
          ((sampleTrack.Segments.map (convertSegment exactEnv)).map (fun s => s.Distance)) :=
  ⟨rfl, (C20_empty_end_segments exactEnv sampleTrack).1 ⟨[]⟩ rfl rfl,
   (C20_empty_end_segments exactEnv sampleTrack).2.2.1⟩

end Degenerate

/-! ## Empty segments inside a track -/

section EmptySegments

variable {F : Type}

theorem uintOfFloat_lt (env : Env F) (x : Int) : env.uintOfFloat x < 2 ^ env.uintBits := by
  unfold Env.uintOfFloat
  dsimp only
  split
  · rename_i h
    have h2 := h.2
    have h1 : ((f64.trunc x).toNat : Int) = f64.trunc x := Int.toNat_of_nonneg h.1
    rw [← h1] at h2
    exact_mod_cast h2
  · exact Nat.mod_lt _ (Nat.two_pow_pos _)

theorem enrichFrom_cumulative_ok (env : Env F) (special : F → Prop)
    (laws : ZeroLaws env special) (rest : List (gpx.Point F)) :
    ∀ q : Point F, ¬ special q.CumulativeDistance →
      ∀ p ∈ enrichFrom env q rest,
        ¬ special p.CumulativeDistance ∧ p.CumulativeDuration < 2 ^ env.uintBits := by
  induction rest with
  | nil => intro q _ p hp; simp [enrichFrom] at hp
  | cons pt rest ih =>
    intro q hq p hp
    have hnext : ¬ special (nextPoint env q pt).CumulativeDistance := by
      rw [nextPoint_CumulativeDistance]; exact laws.add_ok _ _ hq
    simp only [enrichFrom, List.mem_cons] at hp
    rcases hp with rfl | hp
    · refine ⟨hnext, ?_⟩
      rw [nextPoint_CumulativeDuration]
      exact Nat.mod_lt _ (Nat.two_pow_pos _)
    · exact ih _ hnext p hp

theorem enrich_cumulative_ok (env : Env F) (special : F → Prop) (laws : ZeroLaws env special)
    (pts : List (gpx.Point F)) :
    ∀ p ∈ enrich env pts,
      ¬ special p.CumulativeDistance ∧ p.CumulativeDuration < 2 ^ env.uintBits := by
  cases pts with
  | nil => intro p hp; simp [enrich] at hp
  | cons pt rest =>
    intro p hp
    simp only [enrich, List.mem_cons] at hp
    rcases hp with rfl | hp
    · exact ⟨laws.zero_ok, Nat.two_pow_pos _⟩
    · exact enrichFrom_cumulative_ok env special laws rest _ laws.zero_ok p hp

theorem convertSegment_totals_ok (env : Env F) (special : F → Prop)
    (laws : ZeroLaws env special) (segment : gpx.Segment F) :
    ¬ special (convertSegment env segment).Distance ∧
      (convertSegment env segment).Duration < 2 ^ env.uintBits := by
  cases hp : segment.Points with
  | nil =>
    rw [convertSegment_nil env segment hp]
    exact ⟨laws.zero_ok, Nat.two_pow_pos _⟩
  | cons pt rest =>
    have hne : enrich env segment.Points ≠ [] := by rw [hp]; simp [enrich]
    obtain ⟨_, _, h3, h4, _⟩ := convertSegment_fields env segment
      (firstPoint env pt) ((enrich env segment.Points).getLast hne)
      (by rw [hp]; simp [enrich]) (List.getLast?_eq_getLast _ hne)
    rw [h3, h4]
    exact enrich_cumulative_ok env special laws segment.Points _ (List.getLast_mem hne)

theorem foldl_add_ok (env : Env F) (special : F → Prop) (laws : ZeroLaws env special)
    (l : List F) : ∀ x, ¬ special x → ¬ special (l.foldl env.add x) := by
  induction l with
  | nil => intro x hx; exact hx
  | cons y l ih => intro x hx; exact ih _ (laws.add_ok x y hx)

/-- C13. With `float64` addition obeying `ZeroLaws`: a track made of an empty
segment and a segment `S`, in either order, has exactly the `Distance` and
`Duration` of `convertSegment S`; and putting an empty segment anywhere into
a track changes neither its `Distance` nor its `Duration` nor its `Speed`. -/
theorem C13_empty_segments_neutral (env : Env F) (special : F → Prop)
    (laws : ZeroLaws env special) :
    (∀ S : gpx.Segment F,
        (convertTrack env ⟨[⟨[]⟩, S]⟩).Distance = (convertSegment env S).Distance ∧
        (convertTrack env ⟨[⟨[]⟩, S]⟩).Duration = (convertSegment env S).Duration) ∧
    (∀ S : gpx.Segment F,
        (convertTrack env ⟨[S, ⟨[]⟩]⟩).Distance = (convertSegment env S).Distance ∧
        (convertTrack env ⟨[S, ⟨[]⟩]⟩).Duration = (convertSegment env S).Duration) ∧
    (∀ pre post : List (gpx.Segment F),
        (convertTrack env ⟨pre ++ ⟨[]⟩ :: post⟩).Distance =
          (convertTrack env ⟨pre ++ post⟩).Distance ∧
        (convertTrack env ⟨pre ++ ⟨[]⟩ :: post⟩).Duration =
          (convertTrack env ⟨pre ++ post⟩).Duration ∧
        (convertTrack env ⟨pre ++ ⟨[]⟩ :: post⟩).Speed =
          (convertTrack env ⟨pre ++ post⟩).Speed) := by
  have hempty : convertSegment env ⟨[]⟩ = Segment.zero env := convertSegment_nil env ⟨[]⟩ rfl
  refine ⟨?_, ?_, ?_⟩
  · intro S
    obtain ⟨hd, hn⟩ := convertSegment_totals_ok env special laws S
    rw [convertTrack_Distance, convertTrack_Duration]
    simp only [List.map_cons, List.map_nil, hempty, totalFrom, List.foldl_cons, List.foldl_nil,
      List.sum_cons, List.sum_nil, Segment.zero]
    rw [laws.add_zero _ laws.zero_ok, laws.zero_add _ hd]
    refine ⟨rfl, ?_⟩
    rw [Nat.zero_add, Nat.add_zero, Nat.mod_eq_of_lt hn]
  · intro S
    obtain ⟨hd, hn⟩ := convertSegment_totals_ok env special laws S
    rw [convertTrack_Distance, convertTrack_Duration]
    simp only [List.map_cons, List.map_nil, hempty, totalFrom, List.foldl_cons, List.foldl_nil,
      List.sum_cons, List.sum_nil, Segment.zero]
    rw [laws.zero_add _ hd, laws.add_zero _ hd]
    refine ⟨rfl, ?_⟩
    rw [Nat.zero_add, Nat.add_zero, Nat.mod_eq_of_lt hn]
  · intro pre post
    have hD : (convertTrack env ⟨pre ++ ⟨[]⟩ :: post⟩).Distance =
        (convertTrack env ⟨pre ++ post⟩).Distance := by
      rw [convertTrack_Distance, convertTrack_Distance]
      simp only [List.map_append, List.map_cons, hempty, totalFrom, List.foldl_append,
        List.foldl_cons, Segment.zero]
      rw [laws.add_zero _ (foldl_add_ok env special laws _ _ laws.zero_ok)]
    have hN : (convertTrack env ⟨pre ++ ⟨[]⟩ :: post⟩).Duration =
        (convertTrack env ⟨pre ++ post⟩).Duration := by
      rw [convertTrack_Duration, convertTrack_Duration]
      simp only [List.map_append, List.map_cons, hempty, List.sum_append, List.sum_cons,
        Segment.zero, Nat.zero_add]
    refine ⟨hD, hN, ?_⟩
    rw [convertTrack_Speed env ⟨pre ++ ⟨[]⟩ :: post⟩, convertTrack_Speed env ⟨pre ++ post⟩, hD, hN]

theorem C13_empty_segments_neutral_witness :
    ZeroLaws exactEnv (fun _ => False) ∧
      (convertTrack exactEnv ⟨[⟨[]⟩, sampleSegment]⟩).Distance =
        (convertSegment exactEnv sampleSegment).Distance :=
  ⟨⟨fun h => h, fun _ _ _ h => h, fun x _ => by simp [exactEnv], fun x _ => by simp [exactEnv]⟩,
   ((C13_empty_segments_neutral exactEnv (fun _ => False)
      ⟨fun h => h, fun _ _ _ h => h, fun x _ => by simp [exactEnv],
        fun x _ => by simp [exactEnv]⟩).1 sampleSegment).1⟩

end EmptySegments

/-! ## Steps backwards in time -/

namespace f64

theorem round_neg (z : Int) (den : Nat) : round (-z) den = -round z den := by
  unfold round
  rw [Int.sign_neg, Int.natAbs_neg, Int.neg_mul]

theorem ofInt_neg (z : Int) : ofInt (-z) = -ofInt z := by
  unfold ofInt
  rw [Int.neg_mul, round_neg]

theorem add_neg_neg (a b : Int) : add (-a) (-b) = -add a b := by
  unfold add
  rw [← Int.neg_add, round_neg]

theorem div_neg_left (a b : Int) : div (-a) b = -div a b := by
  unfold div
  rw [Int.mul_neg, Int.neg_mul, round_neg]

theorem trunc_neg (x : Int) : trunc (-x) = -trunc x := Int.neg_tdiv x _

end f64

section Backward

variable {F : Type}

theorem neg_tmod (a b : Int) : (-a).tmod b = -a.tmod b := by
  rw [Int.tmod_def, Int.tmod_def, Int.neg_tdiv, Int.mul_neg]
  omega

theorem Seconds_neg (d : Int) : time.Duration.Seconds (-d) = -time.Duration.Seconds d := by
  unfold time.Duration.Seconds
  dsimp only
  rw [Int.neg_tdiv, neg_tmod, f64.ofInt_neg, f64.ofInt_neg, f64.div_neg_left, f64.add_neg_neg]

/-- The seconds of a non-negative duration, in natural numbers. -/
theorem Seconds_natCast (n : Nat) (h : n / 1000000000 < 2 ^ 53) :
    time.Duration.Seconds (n : Int) =
      ((f64.roundRat (n / 1000000000 * f64.scale +
        f64.roundRat (n % 1000000000 * f64.scale * f64.scale) (1000000000 * f64.scale)) 1 : Nat) :
        Int) := by
  have e1 : (n : Int).tdiv 1000000000 = ((n / 1000000000 : Nat) : Int) :=
    (Int.ofNat_tdiv n 1000000000).symm
  have e2 : (n : Int).tmod 1000000000 = ((n % 1000000000 : Nat) : Int) :=
    (Int.ofNat_tmod n 1000000000).symm
  have hn : n % 1000000000 < 1000000000 := Nat.mod_lt _ (by decide)
  have e3 : f64.ofInt 1000000000 = ((1000000000 * f64.scale : Nat) : Int) :=
    f64.ofInt_natCast 1000000000 (by norm_num)
  unfold time.Duration.Seconds
  dsimp only
  rw [e1, e2, e3, f64.ofInt_natCast _ h,
    f64.ofInt_natCast _ (Nat.lt_of_lt_of_le hn (by norm_num)),
    f64.div_natCast _ _ (Nat.mul_pos (by decide) f64.scale_pos), f64.add_natCast]

theorem trunc_Seconds_neg_small (n : Nat) (h : n < 1000000000) :
    f64.trunc (time.Duration.Seconds (-(n : Int))) = 0 := by
  have h0 : n / 1000000000 = 0 := Nat.div_eq_of_lt h
  rw [Seconds_neg, f64.trunc_neg, Seconds_trunc n (by rw [h0]; norm_num), h0]
  rfl

theorem trunc_Seconds_neg_large (n : Nat) (h1 : 1000000000 ≤ n) (h2 : n ≤ 2 ^ 63) :
    f64.trunc (time.Duration.Seconds (-(n : Int))) ≤ -1 := by
  have hsec : n / 1000000000 < 2 ^ 53 := by
    have : n / 1000000000 ≤ 2 ^ 63 / 1000000000 := Nat.div_le_div_right h2
    have h3 : (2 : Nat) ^ 63 / 1000000000 < 2 ^ 53 := by norm_num
    omega
  have hpos : 1 ≤ n / 1000000000 := (Nat.le_div_iff_mul_le (by decide)).mpr (by omega)
  rw [Seconds_neg, f64.trunc_neg, Seconds_natCast n hsec]
  unfold f64.trunc
  rw [← Int.ofNat_tdiv]
  have hlo := f64.le_roundRat
    (n / 1000000000 * f64.scale +
      f64.roundRat (n % 1000000000 * f64.scale * f64.scale) (1000000000 * f64.scale)) 1
    (n / 1000000000) 1074 (by decide) hsec (by rw [Nat.mul_one]; exact Nat.le_add_right _ _)
  have hscale : f64.scale ≤ n / 1000000000 * f64.scale := Nat.le_mul_of_pos_left _ hpos
  have hdiv : 1 ≤ f64.roundRat (n / 1000000000 * f64.scale +
      f64.roundRat (n % 1000000000 * f64.scale * f64.scale) (1000000000 * f64.scale)) 1 /
        f64.scale :=
    (Nat.le_div_iff_mul_le f64.scale_pos).mpr
      (by rw [Nat.one_mul]; exact Nat.le_trans hscale hlo)
  omega

theorem Sub_backward (t u : time.Time) (n : Nat) (hd : t.ns - u.ns = -(n : Int)) :
    t.Sub u = -((min n (2 ^ 63) : Nat) : Int) := by
  unfold time.Time.Sub time.minDuration time.maxDuration
  dsimp only
  rw [hd]
  have h63 : (2 : Int) ^ 63 = 9223372036854775808 := by norm_num
  have h63n : (2 : Nat) ^ 63 = 9223372036854775808 := by norm_num
  rw [h63, h63n]
  have h0 : (0 : Int) ≤ n := Int.ofNat_zero_le n
  split
  · rename_i h
    rw [Nat.min_eq_right (by omega)]
    rfl
  · rename_i h
    rw [if_neg (by omega), Nat.min_eq_left (by omega)]

theorem uintOfFloat_negative (env : Env F) (x : Int) (h : f64.trunc x ≤ -1) :
    env.uintOfFloat x = env.uintOutOfRange x % 2 ^ env.uintBits := by
  unfold Env.uintOfFloat
  dsimp only
  rw [if_neg (by omega)]

/-- The enriched point after a step backwards in time of `n > 0` nanoseconds:
its `Duration` is `0` for less than a second, and the conversion of a float
`uint` cannot represent for a second or more. -/
theorem nextPoint_backward (env : Env F) (q : Point F) (a : gpx.Point F) (n : Nat)
    (hd : a.Time.ns - q.Time.ns = -(n : Int)) :
    (n < 1000000000 → (nextPoint env q a).Duration = 0) ∧
      (1000000000 ≤ n → (nextPoint env q a).Duration =
        env.uintOutOfRange (time.Duration.Seconds (a.Time.Sub q.Time)) % 2 ^ env.uintBits) := by
  rw [nextPoint_Duration]
  constructor
  · intro hn
    rw [Sub_backward a.Time q.Time n hd, Nat.min_eq_left (by norm_num; omega)]
    exact uintOfFloat_small env _ 0 (trunc_Seconds_neg_small n hn) (by norm_num)
  · intro hn
    apply uintOfFloat_negative
    rw [Sub_backward a.Time q.Time n hd]
    apply trunc_Seconds_neg_large
    · have h63 : (2 : Nat) ^ 63 = 9223372036854775808 := by norm_num
      rw [h63]; omega
    · exact Nat.min_le_right _ _

end Backward

section BackwardClaims

variable {F : Type}

/-- C15, amended. When point `i > 0` is earlier than point `i - 1`, the speed
of the enriched point `i` is `speedOf` of its distance and duration.  Earlier
by less than one second: `Duration = 0` and `Speed = 0`.  Earlier by one
second or more: `Duration` is what the platform makes of a negative `float64`
converted to `uint`.  In both cases `Speed` is zero when `Duration` is zero,
and otherwise the quotient of `Distance / 1000` by `Duration / 60 / 60`. -/
theorem C15_backward_speed (env : Env F) (segment : gpx.Segment F) (i : Nat)
    (a b : gpx.Point F) (hi : 0 < i) (ha : segment.Points[i]? = some a)
    (hb : segment.Points[i - 1]? = some b) (hlt : a.Time.ns < b.Time.ns) :
    ∃ p, (convertSegment env segment).Points[i]? = some p ∧
      p.Speed = speedOf env p.Distance p.Duration ∧
      (b.Time.ns - a.Time.ns < 1000000000 → p.Duration = 0 ∧ p.Speed = env.zero) ∧
      (1000000000 ≤ b.Time.ns - a.Time.ns →
        p.Duration =
          env.uintOutOfRange (time.Duration.Seconds (a.Time.Sub b.Time)) % 2 ^ env.uintBits) ∧
      (p.Duration = 0 → p.Speed = env.zero) ∧
      (0 < p.Duration →
        p.Speed = env.div (env.div p.Distance (env.ofNat 1000))
          (env.div (env.div (env.ofNat p.Duration) (env.ofNat 60)) (env.ofNat 60))) := by
  obtain ⟨j, rfl⟩ : ∃ j, i = j + 1 := ⟨i - 1, by omega⟩
  simp only [Nat.add_sub_cancel] at hb
  obtain ⟨q, hq, hp⟩ := enrich_getElem?_succ env segment.Points j a ha
  have hr := enrich_getElem?_raw env segment.Points j q b hq hb
  have hqt : q.Time = b.Time := congrArg (fun r => r.2.2.2) hr
  obtain ⟨n, hn⟩ : ∃ n : Nat, b.Time.ns - a.Time.ns = (n : Int) :=
    ⟨(b.Time.ns - a.Time.ns).toNat, (Int.toNat_of_nonneg (by omega)).symm⟩
  have hd : a.Time.ns - q.Time.ns = -(n : Int) := by rw [hqt]; omega
  obtain ⟨hsmall, hlarge⟩ := nextPoint_backward env q a n hd
  refine ⟨nextPoint env q a, by rw [convertSegment_points]; exact hp,
    nextPoint_Speed env q a, ?_, ?_, ?_, ?_⟩
  · intro h
    have h0 := hsmall (by omega)
    refine ⟨h0, ?_⟩
    rw [nextPoint_Speed, h0]
    rfl
  · intro h
    rw [← hqt]
    exact hlarge (by omega)
  · intro h0
    rw [nextPoint_Speed, h0]
    rfl
  · intro hpos
    rw [nextPoint_Speed]
    unfold speedOf
    rw [if_pos hpos]

theorem C15_backward_speed_witness :
    (0 : Nat) < 1 ∧ (mkPoint 0 1 5 0).Time.ns < (mkPoint 0 0 10 0).Time.ns ∧
      ∃ p, (convertSegment exactEnv backwardsSegment).Points[1]? = some p ∧
        p.Speed = speedOf exactEnv p.Distance p.Duration :=
  ⟨by decide, by decide,
   (C15_backward_speed exactEnv backwardsSegment 1 (mkPoint 0 1 5 0) (mkPoint 0 0 10 0)
     (by decide) (by simp [backwardsSegment]) (by simp [backwardsSegment]) (by decide)).imp
     (fun _ h => ⟨h.1, h.2.1⟩)⟩

set_option maxRecDepth 100000 in
set_option exponentiation.threshold 2048 in
/-- C15 as stated fails where a negative `float64` converts to a large `uint`.
The second point is 5 s earlier than the first and one unit of distance away:
its `Duration` is `2 ^ 64 - 5` and its `Speed` is not zero. -/
theorem C15_counterexample :
    (mkPoint 0 1 5 0).Time.ns < (mkPoint 0 0 10 0).Time.ns ∧
      ∃ p, (convertSegment exactEnv backwardsSegment).Points[1]? = some p ∧
        p.Duration = 18446744073709551611 ∧ p.Speed ≠ 0 := by
  have hdur : (nextPoint exactEnv (firstPoint exactEnv (mkPoint 0 0 10 0))
      (mkPoint 0 1 5 0)).Duration = 18446744073709551611 := by
    rw [nextPoint_Duration]
    decide
  refine ⟨by decide, nextPoint exactEnv (firstPoint exactEnv (mkPoint 0 0 10 0))
    (mkPoint 0 1 5 0), by simp [convertSegment_points, enrich, enrichFrom, backwardsSegment],
    hdur, ?_⟩
  rw [nextPoint_Speed, hdur, nextPoint_Distance]
  simp [speedOf, exactEnv, firstPoint, convertPoint, mkPoint]

/-- C16, amended. When point `i > 0` is earlier than point `i - 1`, the
`Duration` of the enriched point `i` is an unsigned number.  Earlier by less
than one second: it is `0`, the difference in whole seconds.  Earlier by one
second or more: the difference in whole seconds is negative and `Duration` is
not it, but what the platform makes of a negative `float64` converted to
`uint`. -/
theorem C16_backward_duration (env : Env F) (segment : gpx.Segment F) (i : Nat)
    (a b : gpx.Point F) (hi : 0 < i) (ha : segment.Points[i]? = some a)
    (hb : segment.Points[i - 1]? = some b) (hlt : a.Time.ns < b.Time.ns) :
    ∃ p, (convertSegment env segment).Points[i]? = some p ∧
      (b.Time.ns - a.Time.ns < 1000000000 →
        p.Duration = 0 ∧ (p.Duration : Int) = wholeSeconds a.Time b.Time) ∧
      (1000000000 ≤ b.Time.ns - a.Time.ns →
        wholeSeconds a.Time b.Time < 0 ∧ (p.Duration : Int) ≠ wholeSeconds a.Time b.Time ∧
        p.Duration =
          env.uintOutOfRange (time.Duration.Seconds (a.Time.Sub b.Time)) % 2 ^ env.uintBits) := by
  obtain ⟨j, rfl⟩ : ∃ j, i = j + 1 := ⟨i - 1, by omega⟩
  simp only [Nat.add_sub_cancel] at hb
  obtain ⟨q, hq, hp⟩ := enrich_getElem?_succ env segment.Points j a ha
  have hr := enrich_getElem?_raw env segment.Points j q b hq hb
  have hqt : q.Time = b.Time := congrArg (fun r => r.2.2.2) hr
  obtain ⟨n, hn⟩ : ∃ n : Nat, b.Time.ns - a.Time.ns = (n : Int) :=
    ⟨(b.Time.ns - a.Time.ns).toNat, (Int.toNat_of_nonneg (by omega)).symm⟩
  have hd : a.Time.ns - q.Time.ns = -(n : Int) := by rw [hqt]; omega
  obtain ⟨hsmall, hlarge⟩ := nextPoint_backward env q a n hd
  have hw : wholeSeconds a.Time b.Time = -((n / 1000000000 : Nat) : Int) := by
    unfold wholeSeconds
    have : a.Time.ns - b.Time.ns = -(n : Int) := by omega
    rw [this, Int.neg_tdiv]
    exact congrArg (fun z => -z) (Int.ofNat_tdiv n 1000000000).symm
  refine ⟨nextPoint env q a, by rw [convertSegment_points]; exact hp, ?_, ?_⟩
  · intro h
    have hn9 : n < 1000000000 := by omega
    have h0 := hsmall hn9
    refine ⟨h0, ?_⟩
    rw [h0, hw, Nat.div_eq_of_lt hn9]
    rfl
  · intro h
    have hn9 : 1000000000 ≤ n := by omega
    have hpos : 1 ≤ n / 1000000000 := (Nat.le_div_iff_mul_le (by decide)).mpr (by omega)
    have hneg : wholeSeconds a.Time b.Time < 0 := by rw [hw]; omega
    refine ⟨hneg, ?_, ?_⟩
    · have : (0 : Int) ≤ ((nextPoint env q a).Duration : Int) := Int.ofNat_zero_le _
      omega
    · rw [← hqt]
      exact hlarge hn9

theorem C16_backward_duration_witness :
    (0 : Nat) < 1 ∧ (mkPoint 0 1 5 0).Time.ns < (mkPoint 0 0 10 0).Time.ns ∧
      ∃ p, (convertSegment exactEnv backwardsSegment).Points[1]? = some p ∧
        (1000000000 ≤ (mkPoint 0 0 10 0).Time.ns - (mkPoint 0 1 5 0).Time.ns →
          wholeSeconds (mkPoint 0 1 5 0).Time (mkPoint 0 0 10 0).Time < 0) :=
  ⟨by decide, by decide,
   (C16_backward_duration exactEnv backwardsSegment 1 (mkPoint 0 1 5 0) (mkPoint 0 0 10 0)
     (by decide) (by simp [backwardsSegment]) (by simp [backwardsSegment]) (by decide)).imp
     (fun _ h => ⟨h.1, fun h9 => (h.2.2 h9).1⟩)⟩

set_option maxRecDepth 100000 in
set_option exponentiation.threshold 2048 in
/-- C16 as stated fails: `Duration` is unsigned.  The second point is 5 s
earlier than the first: the difference in whole seconds is `-5`, the
`Duration` is `2 ^ 64 - 5`. -/
theorem C16_counterexample :
    (mkPoint 0 1 5 0).Time.ns < (mkPoint 0 0 10 0).Time.ns ∧
      wholeSeconds (mkPoint 0 1 5 0).Time (mkPoint 0 0 10 0).Time = -5 ∧
      (convertSegment exactEnv backwardsSegment).Points.map (fun p => p.Duration) =
        [0, 18446744073709551611] := by
  refine ⟨by decide, by decide, ?_⟩
  rw [convertSegment_points]
  simp only [backwardsSegment, enrich, enrichFrom, List.map_cons, List.map_nil,
    nextPoint_Duration]
  decide

end BackwardClaims

/-! ## The distance function -/

section Distance

theorem sin_half_sq_swap (x y : ℝ) :
    Real.sin ((x - y) * Real.pi / 180 / 2) ^ 2 = Real.sin ((y - x) * Real.pi / 180 / 2) ^ 2 := by
  have h : (x - y) * Real.pi / 180 / 2 = -((y - x) * Real.pi / 180 / 2) := by ring
  rw [h, Real.sin_neg, neg_sq]

theorem haversine_symm (lat1 lon1 lat2 lon2 : ℝ) :
    haversine lat1 lon1 lat2 lon2 = haversine lat2 lon2 lat1 lon1 := by
  unfold haversine
  dsimp only
  rw [sin_half_sq_swap lat2 lat1, sin_half_sq_swap lon2 lon1,
    mul_comm (Real.cos (lat1 * Real.pi / 180)) (Real.cos (lat2 * Real.pi / 180))]

theorem haversine_self (lat lon : ℝ) : haversine lat lon lat lon = 0 := by
  unfold haversine atan2
  dsimp only
  have h1 : Complex.arg ⟨1, 0⟩ = 0 := Complex.arg_one
  simp [h1]

/-- C17. With `haversine` as the specification gives it, over the real
numbers: `p.DistanceTo(q) = q.DistanceTo(p)` and `p.DistanceTo(p) = 0` for all
points `p` and `q`. -/
theorem C17_distance_symmetric (p q : Point ℝ) :
    Point.DistanceTo realEnv p q = Point.DistanceTo realEnv q p ∧
      Point.DistanceTo realEnv p p = 0 :=
  ⟨haversine_symm p.Lat p.Lon q.Lat q.Lon, haversine_self p.Lat p.Lon⟩

end Distance

/-! ## The duration of a segment against its time span -/

section Span

variable {F : Type}

theorem nextPoint_Time (env : Env F) (q : Point F) (a : gpx.Point F) :
    (nextPoint env q a).Time = a.Time :=
  congrArg (fun r => r.2.2.2) (nextPoint_raw env q a)

/-- The duration of a step forward in time of less than `2 ^ 24` seconds is
its whole seconds. -/
theorem nextPoint_Duration_forward (env : Env F) (q : Point F) (a : gpx.Point F)
    (hord : q.Time.ns ≤ a.Time.ns) (hgap : a.Time.ns - q.Time.ns < 2 ^ 24 * 1000000000) :
    ((nextPoint env q a).Duration : Int) = (a.Time.ns - q.Time.ns) / 1000000000 := by
  obtain ⟨d, hd⟩ : ∃ d : Nat, a.Time.ns - q.Time.ns = (d : Int) :=
    ⟨(a.Time.ns - q.Time.ns).toNat, (Int.toNat_of_nonneg (by omega)).symm⟩
  have hsec : d / 1000000000 < 2 ^ 24 := by
    have h1 : (d : Int) < 2 ^ 24 * 1000000000 := by rw [← hd]; exact hgap
    have h2 : d < 2 ^ 24 * 1000000000 := by exact_mod_cast h1
    exact Nat.div_lt_of_lt_mul (by rw [Nat.mul_comm]; exact h2)
  rw [nextPoint_Duration, Sub_small a.Time q.Time d hd hsec,
    uintOfFloat_small env _ _ (Seconds_trunc d hsec) hsec, hd]
  rfl

theorem nextPoint_Duration_zero (env : Env F) (q : Point F) (a : gpx.Point F)
    (hord : q.Time.ns ≤ a.Time.ns) (hgap : a.Time.ns - q.Time.ns < 1000000000) :
    (nextPoint env q a).Duration = 0 := by
  have h := nextPoint_Duration_forward env q a hord
    (Int.lt_of_lt_of_le hgap (by norm_num))
  omega

theorem enrichFrom_last_duration (env : Env F) (rest : List (gpx.Point F)) :
    ∀ q : Point F,
      List.Chain (fun t u : time.Time => t.ns ≤ u.ns ∧ u.ns - t.ns < 2 ^ 24 * 1000000000)
        q.Time (rest.map (fun p => p.Time)) →
      ∀ p, (q :: enrichFrom env q rest).getLast? = some p →
        q.Time.ns ≤ p.Time.ns ∧
          (p.CumulativeDuration : Int) ≤
            q.CumulativeDuration + (p.Time.ns - q.Time.ns) / 1000000000 := by
  induction rest with
  | nil =>
    intro q _ p hp
    simp only [enrichFrom, List.getLast?_singleton, Option.some.injEq] at hp
    subst hp
    simp
  | cons a rest ih =>
    intro q hchain p hp
    simp only [List.map_cons, List.chain_cons] at hchain
    obtain ⟨⟨hord, hgap⟩, hrest⟩ := hchain
    rw [← nextPoint_Time env q a] at hrest
    have hp' : (nextPoint env q a :: enrichFrom env (nextPoint env q a) rest).getLast? =
        some p := by
      simpa [enrichFrom, List.getLast?_cons_cons] using hp
    obtain ⟨h1, h2⟩ := ih (nextPoint env q a) hrest p hp'
    rw [nextPoint_Time] at h1 h2
    have hdur := nextPoint_Duration_forward env q a hord hgap
    have hcum : ((nextPoint env q a).CumulativeDuration : Int) ≤
        q.CumulativeDuration + (nextPoint env q a).Duration := by
      rw [nextPoint_CumulativeDuration]
      unfold Env.uintAdd
      exact_mod_cast Nat.mod_le _ _
    refine ⟨by omega, ?_⟩
    omega

/-- C19, amended. For a non-empty segment whose timestamps never step back
and whose consecutive points are less than `2 ^ 24` seconds apart, `Duration`
is at most the whole seconds from `Start` to `End`; and it can be smaller: for
three points 0.6 s apart each, `Duration` is `0` while `End` is a whole second
after `Start`. -/
theorem C19_duration_at_most_span (env : Env F) :
    (∀ segment : gpx.Segment F, segment.Points ≠ [] → closeOrdered segment.Points →
        ((convertSegment env segment).Duration : Int) ≤
          wholeSeconds (convertSegment env segment).End (convertSegment env segment).Start) ∧
    (closeOrdered (subSecondIn env).Points ∧
      (convertSegment env (subSecondIn env)).Duration = 0 ∧
      wholeSeconds (convertSegment env (subSecondIn env)).End
        (convertSegment env (subSecondIn env)).Start = 1) := by
  have hspan : ∀ segment : gpx.Segment F, segment.Points ≠ [] → closeOrdered segment.Points →
      (convertSegment env segment).Start.ns ≤ (convertSegment env segment).End.ns ∧
      ((convertSegment env segment).Duration : Int) ≤
        ((convertSegment env segment).End.ns - (convertSegment env segment).Start.ns) /
          1000000000 := by
    intro segment hne hord
    cases hpts : segment.Points with
    | nil => exact absurd hpts hne
    | cons pt rest =>
      have hne' : enrich env segment.Points ≠ [] := by rw [hpts]; simp [enrich]
      obtain ⟨h1, h2, _, h4, _⟩ := convertSegment_fields env segment
        (firstPoint env pt) ((enrich env segment.Points).getLast hne')
        (by rw [hpts]; simp [enrich]) (List.getLast?_eq_getLast _ hne')
      rw [h1, h2, h4]
      unfold closeOrdered at hord
      rw [hpts, List.map_cons] at hord
      have hlast : (firstPoint env pt :: enrichFrom env (firstPoint env pt) rest).getLast? =
          some ((enrich env segment.Points).getLast hne') := by
        rw [← List.getLast?_eq_getLast _ hne', hpts]
        rfl
      have h := enrichFrom_last_duration env rest (firstPoint env pt) hord _ hlast
      have h0 : ((firstPoint env pt).CumulativeDuration : Int) = 0 := rfl
      rw [h0, Int.zero_add] at h
      exact h
  constructor
  · intro segment hne hord
    obtain ⟨h1, h2⟩ := hspan segment hne hord
    unfold wholeSeconds
    rw [Int.tdiv_eq_ediv (by omega) (by decide)]
    exact h2
  · have hclose : closeOrdered (subSecondIn env).Points := by
      unfold closeOrdered subSecondIn
      simp only [List.map_cons, List.map_nil, List.chain'_cons, List.chain'_singleton, and_true]
      decide
    refine ⟨hclose, ?_⟩
    have hne' : enrich env (subSecondIn env).Points ≠ [] := by simp [subSecondIn, enrich]
    obtain ⟨h1, h2, _, h4, _⟩ := convertSegment_fields env (subSecondIn env)
      (firstPoint env ⟨env.zero, env.zero, env.zero, ⟨0⟩⟩)
      (nextPoint env (nextPoint env (firstPoint env ⟨env.zero, env.zero, env.zero, ⟨0⟩⟩)
        ⟨env.zero, env.zero, env.zero, ⟨600000000⟩⟩)
        ⟨env.zero, env.zero, env.zero, ⟨1200000000⟩⟩)
      (by simp [subSecondIn, enrich]) (by simp [subSecondIn, enrich, enrichFrom])
    have e1 : (nextPoint env (firstPoint env ⟨env.zero, env.zero, env.zero, ⟨0⟩⟩)
        ⟨env.zero, env.zero, env.zero, ⟨600000000⟩⟩).Duration = 0 :=
      nextPoint_Duration_zero env _ _ (by show (0 : Int) ≤ 600000000; decide)
        (by show (600000000 : Int) - 0 < 1000000000; decide)
    have e2 : (nextPoint env (nextPoint env (firstPoint env ⟨env.zero, env.zero, env.zero, ⟨0⟩⟩)
        ⟨env.zero, env.zero, env.zero, ⟨600000000⟩⟩)
        ⟨env.zero, env.zero, env.zero, ⟨1200000000⟩⟩).Duration = 0 :=
      nextPoint_Duration_zero env _ _
        (by rw [nextPoint_Time]; show (600000000 : Int) ≤ 1200000000; decide)
        (by rw [nextPoint_Time]; show (1200000000 : Int) - 600000000 < 1000000000; decide)
    constructor
    · rw [h4, nextPoint_CumulativeDuration, e2, nextPoint_CumulativeDuration, e1]
      simp [Env.uintAdd, firstPoint, convertPoint, Point.zero]
    · rw [h1, h2, nextPoint_Time]
      show wholeSeconds ⟨1200000000⟩ ⟨0⟩ = 1
      decide

theorem C19_duration_at_most_span_witness :
    sampleSegment.Points ≠ [] ∧ closeOrdered sampleSegment.Points ∧
      ((convertSegment exactEnv sampleSegment).Duration : Int) ≤
        wholeSeconds (convertSegment exactEnv sampleSegment).End
          (convertSegment exactEnv sampleSegment).Start :=
  ⟨by simp [sampleSegment],
   by
    unfold closeOrdered sampleSegment
    simp only [List.map_cons, List.map_nil, List.chain'_cons, List.chain'_singleton, and_true]
    decide,
   (C19_duration_at_most_span exactEnv).1 sampleSegment (by simp [sampleSegment])
    (by
      unfold closeOrdered sampleSegment
      simp only [List.map_cons, List.map_nil, List.chain'_cons, List.chain'_singleton, and_true]
      decide)⟩

set_option maxRecDepth 100000 in
set_option exponentiation.threshold 2048 in
/-- C19 as stated fails.  Two points in temporal order 16777216.999999999 s
apart: the segment's `Duration` is 16777217, one more than the whole seconds
from its `Start` to its `End`. -/
theorem C19_counterexample :
    (mkPoint 0 0 0 0).Time.ns ≤ (mkPoint 0 1 16777216 999999999).Time.ns ∧
      (convertSegment exactEnv longGapSegment).Duration = 16777217 ∧
      wholeSeconds (convertSegment exactEnv longGapSegment).End
        (convertSegment exactEnv longGapSegment).Start = 16777216 := by
  obtain ⟨h1, h2, _, h4, _⟩ := convertSegment_fields exactEnv longGapSegment
    (firstPoint exactEnv (mkPoint 0 0 0 0))
    (nextPoint exactEnv (firstPoint exactEnv (mkPoint 0 0 0 0)) (mkPoint 0 1 16777216 999999999))
    (by simp [longGapSegment, enrich]) (by simp [longGapSegment, enrich, enrichFrom])
  have hdur : (nextPoint exactEnv (firstPoint exactEnv (mkPoint 0 0 0 0))
      (mkPoint 0 1 16777216 999999999)).Duration = 16777217 := by
    rw [nextPoint_Duration]
    decide
  refine ⟨by decide, ?_, ?_⟩
  · rw [h4, nextPoint_CumulativeDuration, hdur]
    decide
  · rw [h1, h2, nextPoint_Time]
    decide

end Span
